import Mathlib

/-!
Verification of the repository session engine of the Cyberpunk desktop git
client (src-tauri/src/git_operations.rs and src-tauri/src/lib.rs), as a
shallow embedding in Lean 4.

Object ids (commit oids, blob content ids, tree ids) are modelled as natural
numbers.  Trees are modelled structurally as association lists from paths to
blob content ids.  The underlying VCS object store (libgit2) is an external
capability; its primitives (reference lookup and write, commit lookup,
status scan, ancestry query) are modelled as total functions over the
explicit repository state below, translated from the way git_operations.rs
invokes them.  Timestamps and freshly allocated object ids, which the source
obtains from the system clock and from content hashing, are taken as
explicit parameters.
-/

/-- A commit object: id, message, author signature, commit time, parent ids
and the (flattened) tree as path to blob-content-id bindings. -/
structure Commit where
  id : Nat
  message : String
  author : String
  email : String
  timestamp : Int
  parents : List Nat
  tree : List (String × Nat)
deriving DecidableEq

/-- The HEAD reference: either symbolic (pointing at a ref name, normally
a branch under refs/heads/) or detached at a commit id. -/
inductive Head where
  | symbolic (target : String)
  | detached (oid : Nat)
deriving DecidableEq

/-- The in-progress backend operation state of the repository
(CHERRY_PICK_HEAD / REVERT_HEAD style sequencer state); cleared by
repo.cleanup_state(). -/
inductive RepoOpState where
  | idle
  | cherryPickInProgress
  | revertInProgress
deriving DecidableEq

/-- The index: staged path to blob-content-id bindings, plus whether
unresolved conflict stages are present (git2 Index::has_conflicts). -/
structure IndexState where
  entries : List (String × Nat)
  conflicts : Bool
deriving DecidableEq

/-- The repository state visible to git_operations.rs through the git2
capability: object store, refs, HEAD, per-branch upstream configuration,
index, working directory (none for a bare repository), the workdir path
string, the configured identity (none when repo.signature() fails) and the
sequencer state. -/
structure Repo where
  commits : List Commit
  refs : List (String × Nat)
  head : Head
  branchConfig : List (String × String)
  index : IndexState
  workdir : Option (List (String × Nat))
  workdirPath : String
  signature : Option (String × String)
  opState : RepoOpState
deriving DecidableEq

/-- Look a reference up by name (first binding wins). -/
def findRef (refs : List (String × Nat)) (name : String) : Option Nat :=
  (refs.find? (fun r => r.1 == name)).map (fun r => r.2)

/-- Write a reference with force semantics (git2 Repository::reference with
force = true): any existing binding of the same name is replaced. -/
def writeRef (refs : List (String × Nat)) (name : String) (oid : Nat) :
    List (String × Nat) :=
  (name, oid) :: refs.filter (fun r => r.1 != name)

/-- Find a commit object in the store by id (git2 find_commit /
peel_to_commit; fails when the object is absent). -/
def findCommit (commits : List Commit) (oid : Nat) : Option Commit :=
  commits.find? (fun c => c.id == oid)

/-- git2 Repository::head(): resolves the HEAD reference.  Succeeds with the
resolved ref name (none when detached) and target oid; fails exactly when
HEAD is symbolic and its target does not exist (unborn branch). -/
def headLookup (repo : Repo) : Option (Option String × Nat) :=
  match repo.head with
  | Head.symbolic t => (findRef repo.refs t).map (fun oid => (some t, oid))
  | Head.detached oid => some (none, oid)

/-- The oid HEAD resolves to, when it resolves. -/
def resolveHeadOid (repo : Repo) : Option Nat :=
  (headLookup repo).map (fun p => p.2)

/-- Association-list lookup for tree / index / workdir path bindings. -/
def lookupPath (l : List (String × Nat)) (p : String) : Option Nat :=
  (l.find? (fun e => e.1 == p)).map (fun e => e.2)

/-- Replace-or-insert a path binding (git2 Index::add_path). -/
def upsertPath (l : List (String × Nat)) (p : String) (v : Nat) :
    List (String × Nat) :=
  (p, v) :: l.filter (fun e => e.1 != p)

/-- Delete a path binding (git2 Index::remove_path; a no-op when absent). -/
def erasePath (l : List (String × Nat)) (p : String) : List (String × Nat) :=
  l.filter (fun e => e.1 != p)

/-- Character-list test that p names an initial segment of s (Rust
str::starts_with / strip_prefix on the model side). -/
def strHasPfx (p s : String) : Bool :=
  p.data.isPrefixOf s.data

/-- Rust str::strip_prefix with unwrap_or: drop the marker when present,
otherwise return the string unchanged. -/
def stripPfxOrSelf (p s : String) : String :=
  if strHasPfx p s then String.mk (s.data.drop p.data.length) else s

/-- Strip trailing slash and backslash path separators (the while-pop loop
at the end of get_repository_info). -/
def stripTrailingSeps (s : String) : String :=
  String.mk ((s.data.reverse.dropWhile (fun c => c = '/' ∨ c = '\\')).reverse)

/-! ## The commit graph and ancestry queries -/

/-- Parent ids of an oid in a store ([] when the object is absent). -/
def parentsOf (commits : List Commit) (oid : Nat) : List Nat :=
  match findCommit commits oid with
  | some c => c.parents
  | none => []

/-- Fuel-bounded parent-walk: does a path of one or more parent steps lead
from src to dst?  Models the graph search behind libgit2
git_graph_descendant_of, which holds strictly (a commit is not a descendant
of itself). -/
def descFuel (commits : List Commit) : Nat → Nat → Nat → Bool
  | 0, _, _ => false
  | fuel + 1, src, dst =>
    (parentsOf commits src).any (fun p => p == dst || descFuel commits fuel p dst)

/-- git2 graph_descendant_of(commit, ancestor): commit strictly descends
from ancestor.  The fuel commitOid + 1 bounds the search depth; under the
well-formedness WfCommits below (parents have strictly smaller ids) it is
exhaustive, as proved in descFuel_iff_reaches. -/
def graph_descendant_of (commits : List Commit) (commitOid ancestorOid : Nat) : Bool :=
  descFuel commits (commitOid + 1) commitOid ancestorOid

/-- Specification-side ancestry: Reaches commits o d holds when d is a
strict ancestor of o, i.e. a nonempty chain of parent steps leads from o
down to d. -/
inductive Reaches (commits : List Commit) : Nat → Nat → Prop
  | parent {o d : Nat} : d ∈ parentsOf commits o → Reaches commits o d
  | step {o p d : Nat} : p ∈ parentsOf commits o → Reaches commits p d →
      Reaches commits o d

/-- Well-formed store: every parent id is strictly smaller than the id of
the commit holding it (ids follow creation order, so the graph is acyclic). -/
def WfCommits (commits : List Commit) : Prop :=
  ∀ c ∈ commits, ∀ p ∈ c.parents, p < c.id

instance : DecidablePred WfCommits := fun commits =>
  inferInstanceAs (Decidable (∀ c ∈ commits, ∀ p ∈ c.parents, p < c.id))

theorem parentsOf_lt {commits : List Commit} (hwf : WfCommits commits)
    {o p : Nat} (hp : p ∈ parentsOf commits o) : p < o := by
  unfold parentsOf at hp
  cases hfind : findCommit commits o with
  | none => rw [hfind] at hp; simp at hp
  | some c =>
    rw [hfind] at hp
    have hmem : c ∈ commits := List.mem_of_find?_eq_some hfind
    have hid : c.id = o := by
      have := List.find?_some hfind
      simpa using this
    have := hwf c hmem p hp
    omega

theorem reaches_lt {commits : List Commit} (hwf : WfCommits commits)
    {o d : Nat} (h : Reaches commits o d) : d < o := by
  induction h with
  | parent hp => exact parentsOf_lt hwf hp
  | step hp _ ih => exact lt_trans ih (parentsOf_lt hwf hp)

theorem descFuel_sound {commits : List Commit} :
    ∀ {fuel src dst : Nat}, descFuel commits fuel src dst = true →
      Reaches commits src dst := by
  intro fuel
  induction fuel with
  | zero => intro src dst h; simp [descFuel] at h
  | succ n ih =>
    intro src dst h
    simp only [descFuel, List.any_eq_true, Bool.or_eq_true, beq_iff_eq] at h
    obtain ⟨p, hp, hcase⟩ := h
    cases hcase with
    | inl heq => exact heq ▸ Reaches.parent hp
    | inr hrec => exact Reaches.step hp (ih hrec)

theorem descFuel_mono {commits : List Commit} :
    ∀ {f g src dst : Nat}, f ≤ g → descFuel commits f src dst = true →
      descFuel commits g src dst = true := by
  intro f
  induction f with
  | zero => intro g src dst _ h; simp [descFuel] at h
  | succ n ih =>
    intro g src dst hle h
    cases g with
    | zero => omega
    | succ m =>
      simp only [descFuel, List.any_eq_true, Bool.or_eq_true, beq_iff_eq] at h ⊢
      obtain ⟨p, hp, hcase⟩ := h
      refine ⟨p, hp, ?_⟩
      cases hcase with
      | inl heq => exact Or.inl heq
      | inr hrec => exact Or.inr (ih (by omega) hrec)

theorem descFuel_complete {commits : List Commit} (hwf : WfCommits commits)
    {src dst : Nat} (h : Reaches commits src dst) :
    ∀ {fuel : Nat}, src < fuel → descFuel commits fuel src dst = true := by
  induction h with
  | @parent o d hp =>
    intro fuel hlt
    cases fuel with
    | zero => omega
    | succ n =>
      simp only [descFuel, List.any_eq_true, Bool.or_eq_true, beq_iff_eq]
      exact ⟨d, hp, Or.inl rfl⟩
  | @step o p d hp hr ih =>
    intro fuel hlt
    cases fuel with
    | zero => omega
    | succ n =>
      simp only [descFuel, List.any_eq_true, Bool.or_eq_true, beq_iff_eq]
      have hpo : p < o := parentsOf_lt hwf hp
      exact ⟨p, hp, Or.inr (ih (by omega))⟩

theorem descFuel_iff_reaches {commits : List Commit} (hwf : WfCommits commits)
    {src dst : Nat} :
    graph_descendant_of commits src dst = true ↔ Reaches commits src dst := by
  constructor
  · exact descFuel_sound
  · intro h
    exact descFuel_complete hwf h (Nat.lt_succ_self src)

/-! ## Revision walk (git2 Revwalk with push_head) -/

/-- Depth-first enumeration of the commits reachable from the stack, each
visited once; ids without a commit object are skipped (the real walk only
yields loaded commit objects).  Fuel-bounded for termination. -/
def walkAux (commits : List Commit) : Nat → List Nat → List Nat → List Nat
  | 0, _, acc => acc.reverse
  | _ + 1, [], acc => acc.reverse
  | fuel + 1, o :: stack, acc =>
    match findCommit commits o with
    | none => walkAux commits fuel stack acc
    | some c =>
      if o ∈ acc then walkAux commits fuel stack acc
      else walkAux commits fuel (c.parents ++ stack) (o :: acc)

/-- Fuel large enough to exhaust the walk: one unit per commit expansion
plus one per pushed parent id, plus the root. -/
def walkFuel (commits : List Commit) : Nat :=
  commits.foldl (fun a c => a + c.parents.length + 1) 1

/-- The oids reachable from root, root first. -/
def reachableFrom (commits : List Commit) (root : Nat) : List Nat :=
  walkAux commits (walkFuel commits) [root] []

/-- The CommitInfo record returned to the front end (models.rs). -/
structure CommitInfo where
  sha : Nat
  message : String
  author : String
  email : String
  timestamp : Int
  is_pushed : Bool
  parents : List Nat
deriving DecidableEq

/-- The upstream tip used by get_commit_history for pushed marking: when
HEAD is a branch, its configured upstream ref name is looked up
(branch_upstream_name), the upstream ref resolved, and its target taken;
anything missing yields none. -/
def historyUpstreamOid (repo : Repo) : Option Nat :=
  match headLookup repo with
  | some (some t, _) =>
    if strHasPfx "refs/heads/" t then
      match (repo.branchConfig.find? (fun b => b.1 == t)).map (fun b => b.2) with
      | some uname => findRef repo.refs uname
      | none => none
    else none
  | _ => none

/-- The CommitInfo built for one walked oid.  The source resolves the
upstream tip once before the walk; historyUpstreamOid is pure over the
immutable state, so reading it per entry denotes the same value. -/
def mkCommitInfo (repo : Repo) (oid : Nat) : Option CommitInfo :=
  (findCommit repo.commits oid).map (fun c =>
    { sha := c.id, message := c.message, author := c.author,
      email := c.email, timestamp := c.timestamp,
      is_pushed := match historyUpstreamOid repo with
        | some u => graph_descendant_of repo.commits u oid || u == oid
        | none => false,
      parents := c.parents })

/-- get_commit_history (git_operations.rs): resolve the upstream tip once,
walk commits from HEAD bounded by limit, and mark each commit pushed when
the upstream tip strictly descends from it or equals it. -/
def get_commit_history (repo : Repo) (limit : Nat) :
    Except String (List CommitInfo) :=
  match resolveHeadOid repo with
  | none => Except.error "Failed to push HEAD: reference not found"
  | some h =>
    Except.ok (((reachableFrom repo.commits h).take limit).filterMap
      (mkCommitInfo repo))

/-! ## Status scan (libgit2 status list) -/

/-- Per-path status flags (git2 Status bits used by the source). -/
structure StatusFlags where
  indexNew : Bool
  indexModified : Bool
  indexDeleted : Bool
  wtNew : Bool
  wtModified : Bool
  wtDeleted : Bool
deriving DecidableEq

def anyFlag (f : StatusFlags) : Bool :=
  f.indexNew || f.indexModified || f.indexDeleted ||
  f.wtNew || f.wtModified || f.wtDeleted

/-- Flags of one path from the HEAD tree, index and working tree. -/
def flagsFor (headTree idx wt : List (String × Nat)) (p : String) : StatusFlags :=
  let h := lookupPath headTree p
  let i := lookupPath idx p
  let w := lookupPath wt p
  { indexNew := i.isSome && h.isNone
    indexModified := match h, i with
      | some hv, some iv => hv ≠ iv
      | _, _ => false
    indexDeleted := h.isSome && i.isNone
    wtNew := w.isSome && i.isNone
    wtModified := match i, w with
      | some iv, some wv => iv ≠ wv
      | _, _ => false
    wtDeleted := i.isSome && w.isNone }

/-- The tree of the commit HEAD resolves to ([] when HEAD is unborn or the
commit object is absent). -/
def headTreeOf (repo : Repo) : List (String × Nat) :=
  match (resolveHeadOid repo).bind (findCommit repo.commits) with
  | some c => c.tree
  | none => []

/-- One unified status scan comparing a HEAD tree vs index vs working
tree, untracked files included (recursively): the entries whose flags are
non-empty. -/
def statusScanOn (headTree idx wt : List (String × Nat)) :
    List (String × StatusFlags) :=
  (((headTree.map Prod.fst ++ idx.map Prod.fst ++ wt.map Prod.fst).dedup).map
    (fun p => (p, flagsFor headTree idx wt p))).filter
    (fun e => anyFlag e.2)

/-- The status scan of a repository.  Models the libgit2 status list the
source obtains both from statuses(None) (defaults include untracked files,
recursing into untracked directories) and from the explicit StatusOptions
in get_status. -/
def statusScan (repo : Repo) (wt : List (String × Nat)) :
    List (String × StatusFlags) :=
  statusScanOn (headTreeOf repo) repo.index.entries wt

/-! ## Repository info (get_repository_info) -/

/-- The RepositoryInfo record returned to the front end (models.rs). -/
structure RepositoryInfo where
  path : String
  current_branch : String
  is_dirty : Bool
  ahead : Nat
  behind : Nat
deriving DecidableEq

/-- libgit2 graph_ahead_behind: unique commits reachable from local and not
from upstream, and vice versa. -/
def graph_ahead_behind (commits : List Commit) (localOid upstreamOid : Nat) :
    Nat × Nat :=
  let lr := reachableFrom commits localOid
  let ur := reachableFrom commits upstreamOid
  ((lr.filter (fun o => o ∉ ur)).length, (ur.filter (fun o => o ∉ lr)).length)

/-- get_repository_info (git_operations.rs): current branch name (shorthand
when HEAD is a branch, "detached HEAD" otherwise, and for an unborn branch
the symbolic target of HEAD with refs/heads/ stripped); ahead/behind from
the configured upstream when present, zero otherwise; dirty flag from a
status scan; workdir path with trailing separators removed.  A bare
repository fails at the status scan. -/
def get_repository_info (repo : Repo) : Except String RepositoryInfo :=
  let resolved :=
    match headLookup repo with
    | some (nameOpt, oid) =>
      let isBranch := match nameOpt with
        | some t => strHasPfx "refs/heads/" t
        | none => false
      let branch :=
        match nameOpt with
        | some t => if isBranch then stripPfxOrSelf "refs/heads/" t
                    else "detached HEAD"
        | none => "detached HEAD"
      let ab :=
        match nameOpt with
        | some t =>
          if strHasPfx "refs/heads/" t then
            match (repo.branchConfig.find? (fun (b : String × String) => b.1 == t)).map Prod.snd with
            | some uname =>
              match findRef repo.refs uname with
              | some uoid => graph_ahead_behind repo.commits oid uoid
              | none => (0, 0)
            | none => (0, 0)
          else (0, 0)
        | none => (0, 0)
      (branch, ab.1, ab.2)
    | none =>
      match repo.head with
      | Head.symbolic t => (stripPfxOrSelf "refs/heads/" t, 0, 0)
      | Head.detached _ => ("unknown", 0, 0)
  match repo.workdir with
  | none => Except.error "Failed to get statuses: bare repository"
  | some wt =>
    Except.ok
      { path := stripTrailingSeps repo.workdirPath
        current_branch := resolved.1
        is_dirty := !(statusScan repo wt).isEmpty
        ahead := resolved.2.1
        behind := resolved.2.2 }

/-! ## Safety snapshots and the destructive operations -/

/-- The reserved safety ref name: refs/safety/label/unix-timestamp. -/
def safetyRefName (action : String) (ts : Nat) : String :=
  "refs/safety/" ++ action ++ "/" ++ toString ts

/-- The peel-and-write step of create_safety_ref: peel the resolved HEAD
oid to a commit (failing when the object is unreadable) and force-write the
safety ref at that commit. -/
def snapshotAt (repo : Repo) (action : String) (ts oid : Nat) :
    Except String Repo :=
  match findCommit repo.commits oid with
  | none => Except.error "object not found"
  | some c =>
    Except.ok { repo with refs := writeRef repo.refs (safetyRefName action ts) c.id }

/-- create_safety_ref (git_operations.rs): when HEAD does not resolve
(unborn branch) succeed without touching anything; otherwise peel HEAD to a
commit and force-write the safety ref at that commit. -/
def create_safety_ref (repo : Repo) (action : String) (ts : Nat) :
    Except String Repo :=
  match headLookup repo with
  | none => Except.ok repo
  | some (_, oid) => snapshotAt repo action ts oid

/-- Add a commit object to the store. -/
def addCommit (repo : Repo) (c : Commit) : Repo :=
  { repo with commits := c :: repo.commits }

/-- repo.commit(Some("HEAD"), ...) / Commit::amend(Some("HEAD"), ...): move
the reference HEAD points at to the new commit id; when HEAD is symbolic the
branch ref is written (created if absent, as for the first commit on an
unborn branch), when detached HEAD itself moves. -/
def updateHeadTarget (repo : Repo) (newOid : Nat) : Repo :=
  match repo.head with
  | Head.symbolic t => { repo with refs := writeRef repo.refs t newOid }
  | Head.detached _ => { repo with head := Head.detached newOid }

/-- The identity used by amend_last_commit / create_commit: the configured
signature with the placeholder fallback. -/
def signatureOrFallback (repo : Repo) : String × String :=
  match repo.signature with
  | some s => s
  | none => ("User", "user@example.com")

/-- The body of amend_last_commit after the snapshot: write the index as a
tree (failing on unresolved conflicts), peel HEAD to the tip commit, and
rewrite it in place: new commit with the same parents, the new message,
tree and identity; HEAD moves to the new id. -/
def amendBody (r1 : Repo) (message : String) (ts newOid : Nat) :
    Repo × Except String Nat :=
  if r1.index.conflicts then
    (r1, Except.error "Failed to write tree: index has conflicts")
  else
    let tree := r1.index.entries
    let sig := signatureOrFallback r1
    match headLookup r1 with
    | none => (r1, Except.error "Failed to get HEAD: reference not found")
    | some (_, hoid) =>
      match findCommit r1.commits hoid with
      | none => (r1, Except.error "Failed to peel HEAD to commit: object not found")
      | some last =>
        let newC : Commit :=
          { id := newOid, message := message, author := sig.1,
            email := sig.2, timestamp := (ts : Int),
            parents := last.parents, tree := tree }
        (updateHeadTarget (addCommit r1 newC) newOid, Except.ok newOid)

/-- amend_last_commit (git_operations.rs): snapshot first (a snapshot
failure aborts via the question-mark operator), then the amend body. -/
def amend_last_commit (repo : Repo) (message : String) (ts newOid : Nat) :
    Repo × Except String Nat :=
  match create_safety_ref repo "amend" ts with
  | Except.error e => (repo, Except.error e)
  | Except.ok r1 => amendBody r1 message ts newOid

/-- The outcome of the backend cherrypick/revert primitive applying the
patch-equivalent of the target commit onto the index and working tree.  The
merge computation itself is an out-of-scope capability (git2), so its result
is an input to the model: the resulting index entries and whether unresolved
conflict stages were produced. -/
structure ApplyResult where
  entries : List (String × Nat)
  conflicts : Bool
deriving DecidableEq

/-- The index and sequencer state after the backend cherrypick primitive. -/
def applyCherrypick (repo : Repo) (apply : ApplyResult) : Repo :=
  { repo with index := { entries := apply.entries, conflicts := apply.conflicts }
              opState := RepoOpState.cherryPickInProgress }

/-- The index and sequencer state after the backend revert primitive. -/
def applyRevert (repo : Repo) (apply : ApplyResult) : Repo :=
  { repo with index := { entries := apply.entries, conflicts := apply.conflicts }
              opState := RepoOpState.revertInProgress }

/-- repo.cleanup_state(): clear the in-progress sequencer state. -/
def cleanup_state (repo : Repo) : Repo :=
  { repo with opState := RepoOpState.idle }

/-- The commit step shared by cherry_pick and revert_commit after the
apply: on unresolved conflicts abort with the given conflict message,
leaving the conflict state in place; otherwise write the tree and
synthesize a new commit with the given message and the current HEAD as
sole parent, then clear the sequencer state. -/
def pickCommitStep (r2 : Repo) (conflictMsg newMsg : String) (ts newOid : Nat) :
    Repo × Except String Unit :=
  if r2.index.conflicts then
    (r2, Except.error conflictMsg)
  else
    let tree := r2.index.entries
    match r2.signature with
    | none => (r2, Except.error "failed to create signature")
    | some sig =>
      match headLookup r2 with
      | none => (r2, Except.error "Failed to get HEAD: reference not found")
      | some (_, hoid) =>
        match findCommit r2.commits hoid with
        | none => (r2, Except.error "Failed to peel HEAD: object not found")
        | some parent =>
          let newC : Commit :=
            { id := newOid, message := newMsg, author := sig.1,
              email := sig.2, timestamp := (ts : Int),
              parents := [parent.id], tree := tree }
          (cleanup_state (updateHeadTarget (addCommit r2 newC) newOid),
           Except.ok ())

/-- The body of cherry_pick after the snapshot: find the target commit,
apply it, then the commit step carrying the original message. -/
def cherryBody (r1 : Repo) (sha : Nat) (apply : ApplyResult) (ts newOid : Nat) :
    Repo × Except String Unit :=
  match findCommit r1.commits sha with
  | none => (r1, Except.error "Commit not found")
  | some target =>
    pickCommitStep (applyCherrypick r1 apply)
      "Cherry-pick resulted in conflicts. Please resolve them."
      target.message ts newOid

/-- cherry_pick (git_operations.rs): snapshot first (failure aborts), then
the cherry-pick body. -/
def cherry_pick (repo : Repo) (sha : Nat) (apply : ApplyResult)
    (ts newOid : Nat) : Repo × Except String Unit :=
  match create_safety_ref repo "cherry-pick" ts with
  | Except.error e => (repo, Except.error e)
  | Except.ok r1 => cherryBody r1 sha apply ts newOid

/-- The body of revert_commit after the snapshot: find the target commit,
apply the revert, then the commit step with message Revert "original". -/
def revertBody (r1 : Repo) (sha : Nat) (apply : ApplyResult) (ts newOid : Nat) :
    Repo × Except String Unit :=
  match findCommit r1.commits sha with
  | none => (r1, Except.error "Commit not found")
  | some target =>
    pickCommitStep (applyRevert r1 apply)
      "Revert resulted in conflicts. Please resolve them."
      ("Revert \"" ++ target.message ++ "\"") ts newOid

/-- revert_commit (git_operations.rs): snapshot first (failure aborts),
then the revert body. -/
def revert_commit (repo : Repo) (sha : Nat) (apply : ApplyResult)
    (ts newOid : Nat) : Repo × Except String Unit :=
  match create_safety_ref repo "revert" ts with
  | Except.error e => (repo, Except.error e)
  | Except.ok r1 => revertBody r1 sha apply ts newOid

/-- git2 checkout_head with the force strategy: reset index and working
tree to the tree of the commit HEAD resolves to; fails on an unborn branch
or when the commit object is unreadable or there is no working tree. -/
def checkout_head_force (repo : Repo) : Except String Repo :=
  match resolveHeadOid repo with
  | none => Except.error "reference not found"
  | some hoid =>
    match findCommit repo.commits hoid with
    | none => Except.error "object not found"
    | some c =>
      match repo.workdir with
      | none => Except.error "no working directory"
      | some _ =>
        Except.ok { repo with
          index := { entries := c.tree, conflicts := false }
          workdir := some c.tree }

/-- The body of discard_all_changes: a forced checkout of the whole
working tree from HEAD, with the error contextualized. -/
def discardAllBody (r1 : Repo) : Repo × Except String Unit :=
  match checkout_head_force r1 with
  | Except.ok r2 => (r2, Except.ok ())
  | Except.error e => (r1, Except.error ("Failed to discard all changes: " ++ e))

/-- discard_all_changes (git_operations.rs): the snapshot result is
discarded (let underscore binding), then the forced checkout proceeds on
whatever state the snapshot attempt left. -/
def discard_all_changes (repo : Repo) (ts : Nat) : Repo × Except String Unit :=
  discardAllBody (match create_safety_ref repo "discard-all" ts with
    | Except.ok r => r
    | Except.error _ => repo)

/-! ## Staging and commit creation -/

/-- The StageResult record (models.rs): successfully staged paths and
per-path warning strings. -/
structure StageResult where
  staged : List String
  warnings : List String
deriving DecidableEq

/-- The warning recorded for a path that no longer exists on disk. -/
def missingWarn (p : String) : String :=
  "Skipped " ++ p ++ ": file not found (removed from index)"

/-- The per-path loop of stage_files: a path present in the working tree is
added to the index and recorded as staged; a path absent from disk is
removed from the index and recorded as a warning. -/
def stageLoop (wt : List (String × Nat)) :
    List String → List (String × Nat) →
    List (String × Nat) × List String × List String
  | [], idx => (idx, [], [])
  | p :: rest, idx =>
    match lookupPath wt p with
    | some v =>
      let r := stageLoop wt rest (upsertPath idx p v)
      (r.1, p :: r.2.1, r.2.2)
    | none =>
      let r := stageLoop wt rest (erasePath idx p)
      (r.1, r.2.1, missingWarn p :: r.2.2)

/-- stage_files (git_operations.rs): requires a working directory, runs the
per-path loop over the index, writes the index back and returns the
partition of staged paths and warnings. -/
def stage_files (repo : Repo) (paths : List String) :
    Except String (Repo × StageResult) :=
  match repo.workdir with
  | none => Except.error "No working directory found"
  | some wt =>
    let r := stageLoop wt paths repo.index.entries
    Except.ok
      ({ repo with index := { repo.index with entries := r.1 } },
       { staged := r.2.1, warnings := r.2.2 })

/-- create_commit (git_operations.rs): write the index as a tree (failing
on unresolved conflicts), use the configured identity with the placeholder
fallback, take the commit HEAD peels to as sole parent when available (zero
parents otherwise, as for the first commit), create the commit and move
HEAD to it. -/
def create_commit (repo : Repo) (message : String) (ts newOid : Nat) :
    Except String (Repo × Nat) :=
  if repo.index.conflicts then
    Except.error "Failed to write tree: index has conflicts"
  else
    let tree := repo.index.entries
    let sig := signatureOrFallback repo
    let parentC := (resolveHeadOid repo).bind (findCommit repo.commits)
    let parents := match parentC with
      | some p => [p.id]
      | none => []
    let newC : Commit :=
      { id := newOid, message := message, author := sig.1, email := sig.2,
        timestamp := (ts : Int), parents := parents, tree := tree }
    Except.ok (updateHeadTarget (addCommit repo newC) newOid, newOid)

/-! ## The session layer (lib.rs) -/

/-- The session state behind the single lock: the open repository (none
when no repository is open) and the settings document.  The watcher handle
is an OS resource with no bearing on the claims below and is omitted. -/
structure AppState where
  repo : Option Repo
  recent_repositories : List String
  last_opened_repository : Option String
deriving DecidableEq

/-- The step of the create_commit command after staging: the
nothing-to-stage guard, then commit creation. -/
def commitAfterStage (st : AppState) (message : String) (ts newOid : Nat)
    (r1 : Repo) (sr : StageResult) : Except String (Nat × AppState) :=
  if sr.staged.isEmpty && !sr.warnings.isEmpty then
    Except.error ("No files could be staged: " ++
      String.intercalate "; " sr.warnings)
  else
    match create_commit r1 message ts newOid with
    | Except.error e => Except.error e
    | Except.ok (r2, oid) => Except.ok (oid, { st with repo := some r2 })

/-- The create_commit command (lib.rs): requires an open repository, stages
the requested files, and when nothing was staged while warnings were
produced reports the nothing-to-stage precondition failure instead of
creating an empty commit; otherwise creates the commit from the index. -/
def create_commit_cmd (st : AppState) (message : String) (files : List String)
    (ts newOid : Nat) : Except String (Nat × AppState) :=
  match st.repo with
  | none => Except.error "No repository open"
  | some repo =>
    match stage_files repo files with
    | Except.error e => Except.error e
    | Except.ok (r1, sr) => commitAfterStage st message ts newOid r1 sr

/-- The operations of the session layer that touch the recent-repositories
settings list: a successful open (insert at front when absent, then
truncate to 10), a successful clone (insert at front when absent, no
truncation), and an open of a no-longer-existing path (pruned from the
list). -/
inductive RecentOp where
  | openOk (p : String)
  | cloneOk (p : String)
  | openMissing (p : String)
deriving DecidableEq

/-- One step of the recent-repositories list per operation, translated from
open_repository and clone_repository in lib.rs. -/
def recentStep (l : List String) : RecentOp → List String
  | RecentOp.openOk p => if p ∈ l then l else (p :: l).take 10
  | RecentOp.cloneOk p => if p ∈ l then l else p :: l
  | RecentOp.openMissing p => l.filter (fun q => q ≠ p)

/-- The recent-repositories list after a sequence of operations starting
from the empty list. -/
def recentRun (ops : List RecentOp) : List String :=
  ops.foldl recentStep []

/-! ## Pull (fetch then fast-forward) -/

/-- Modelled from the spec: the merge-analysis decision of the native
fetch-then-fast-forward pull variant of section 4.3 (Remote sync), given
the local tip l of the branch.  If up to date, no-op; if a fast-forward is
possible, move the local branch ref to the fetched tip and force-checkout
its tree; otherwise report the distinct non-fast-forward condition without
attempting any merge. -/
def pullDecide (r1 : Repo) (branchRef : String) (fetchedTip l : Nat) :
    Repo × Except String Unit :=
  if l == fetchedTip || graph_descendant_of r1.commits l fetchedTip then
    (r1, Except.ok ())
  else if graph_descendant_of r1.commits fetchedTip l then
    match findCommit r1.commits fetchedTip with
    | none => (r1, Except.error "object not found")
    | some c =>
      match r1.workdir with
      | none => (r1, Except.error "no working directory")
      | some _ =>
        (({ r1 with refs := writeRef r1.refs branchRef fetchedTip
                    index := { entries := c.tree, conflicts := false }
                    workdir := some c.tree }), Except.ok ())
  else
    (r1, Except.error "non-fast-forward: histories have diverged")

/-- Modelled from the spec: resolve the local branch tip after the fetch,
then decide. -/
def pullAnalysis (r1 : Repo) (branchRef : String) (fetchedTip : Nat) :
    Repo × Except String Unit :=
  match findRef r1.refs branchRef with
  | none => (r1, Except.error "Failed to get HEAD: reference not found")
  | some l => pullDecide r1 branchRef fetchedTip l

/-- Modelled from the spec: the native fetch-then-fast-forward pull variant
of section 4.3 (Remote sync).  The pull_changes in src shells out to the
external git binary (run_git_command with pull), so the merge analysis the
spec describes is not under src; this definition follows the spec words:
fetch updates the remote-tracking ref to the fetched tip, then the
analysis decides between no-op, fast-forward and non-fast-forward. -/
def pull_fast_forward (repo : Repo) (branchRef upstreamRef : String)
    (fetchedTip : Nat) : Repo × Except String Unit :=
  pullAnalysis { repo with refs := writeRef repo.refs upstreamRef fetchedTip }
    branchRef fetchedTip

/-! ## Helper lemmas on lookups -/

theorem find?_filter_ne {l : List (String × Nat)} {p n : String} (h : p ≠ n) :
    (l.filter (fun e => e.1 != n)).find? (fun e => e.1 == p) =
      l.find? (fun e => e.1 == p) := by
  induction l with
  | nil => rfl
  | cons a l ih =>
    by_cases ha : a.1 = n
    · have h1 : (a.1 != n) = false := by simp [ha]
      have h2 : (a.1 == p) = false := by
        rw [ha]
        exact beq_eq_false_iff_ne.mpr (Ne.symm h)
      rw [List.filter_cons, h1]
      simp only [Bool.false_eq_true, if_false]
      rw [List.find?_cons, h2]
      exact ih
    · have h1 : (a.1 != n) = true := bne_iff_ne.mpr ha
      rw [List.filter_cons, h1]
      simp only [if_true]
      rw [List.find?_cons, List.find?_cons]
      cases hap : (a.1 == p) with
      | true => rfl
      | false => exact ih

theorem findRef_writeRef_self (refs : List (String × Nat)) (n : String) (v : Nat) :
    findRef (writeRef refs n v) n = some v := by
  simp only [findRef, writeRef]
  rw [List.find?_cons]
  simp

theorem findRef_writeRef_other {refs : List (String × Nat)} {n m : String}
    (v : Nat) (h : m ≠ n) : findRef (writeRef refs n v) m = findRef refs m := by
  have hnm : (n == m) = false := beq_eq_false_iff_ne.mpr (Ne.symm h)
  simp only [findRef, writeRef]
  rw [List.find?_cons]
  simp only [hnm]
  rw [find?_filter_ne h]

theorem lookupPath_upsert_self (l : List (String × Nat)) (p : String) (v : Nat) :
    lookupPath (upsertPath l p v) p = some v := by
  simp only [lookupPath, upsertPath]
  rw [List.find?_cons]
  simp

theorem lookupPath_upsert_other {l : List (String × Nat)} {p q : String}
    (v : Nat) (h : q ≠ p) : lookupPath (upsertPath l p v) q = lookupPath l q := by
  have hpq : (p == q) = false := beq_eq_false_iff_ne.mpr (Ne.symm h)
  simp only [lookupPath, upsertPath]
  rw [List.find?_cons]
  simp only [hpq]
  rw [find?_filter_ne h]

theorem lookupPath_erase_self (l : List (String × Nat)) (p : String) :
    lookupPath (erasePath l p) p = none := by
  have hfind : (l.filter (fun e => e.1 != p)).find? (fun e => e.1 == p) = none := by
    rw [List.find?_eq_none]
    intro x hx
    have hkeep := List.of_mem_filter hx
    simp only [bne_iff_ne, ne_eq] at hkeep
    simpa using hkeep
  simp [lookupPath, erasePath, hfind]

theorem lookupPath_erase_other {l : List (String × Nat)} {p q : String}
    (h : q ≠ p) : lookupPath (erasePath l p) q = lookupPath l q := by
  simp only [lookupPath, erasePath]
  rw [find?_filter_ne h]

theorem findCommit_mem_id {commits : List Commit} {o : Nat} {c : Commit}
    (h : findCommit commits o = some c) : c ∈ commits ∧ c.id = o := by
  refine ⟨List.mem_of_find?_eq_some h, ?_⟩
  have := List.find?_some h
  simpa using this

/-- A name under refs/heads/ is never a safety ref name (which lives under
refs/safety/). -/
theorem heads_ne_safety {t a : String} {ts : Nat}
    (h : strHasPfx "refs/heads/" t = true) : t ≠ safetyRefName a ts := by
  intro heq
  subst heq
  unfold strHasPfx at h
  rw [List.isPrefixOf_iff_prefix] at h
  have hdata : (safetyRefName a ts).data =
      "refs/safety/".data ++ (a ++ "/" ++ toString ts).data := by
    unfold safetyRefName
    show (("refs/safety/" ++ a ++ "/" ++ toString ts).data = _)
    have h1 : ∀ s u : String, (s ++ u).data = s.data ++ u.data := fun s u => rfl
    rw [h1, h1, h1, h1, h1]
    simp [List.append_assoc]
  rw [hdata] at h
  have hlen : ("refs/heads/".data).length ≤ ("refs/safety/".data).length := by
    decide
  have htake := List.prefix_iff_eq_take.mp h
  rw [List.take_append_of_le_length hlen] at htake
  revert htake
  decide

/-- Well-formed HEAD: when symbolic, it targets a name under refs/heads/
(the only shape git itself ever writes for a symbolic HEAD). -/
def headIsBranchRef (repo : Repo) : Bool :=
  match repo.head with
  | Head.symbolic t => strHasPfx "refs/heads/" t
  | Head.detached _ => true

theorem head_target_ne_safety {repo : Repo} {t a : String} {ts : Nat}
    (hbr : headIsBranchRef repo = true) (hh : repo.head = Head.symbolic t) :
    t ≠ safetyRefName a ts := by
  unfold headIsBranchRef at hbr
  rw [hh] at hbr
  exact heads_ne_safety hbr

theorem create_safety_ref_unborn {repo : Repo} {a : String} {ts : Nat}
    (h : headLookup repo = none) : create_safety_ref repo a ts = Except.ok repo := by
  unfold create_safety_ref
  rw [h]

theorem create_safety_ref_born {repo : Repo} {a : String} {ts : Nat}
    {no : Option String} {h : Nat} {c : Commit}
    (hh : headLookup repo = some (no, h))
    (hc : findCommit repo.commits h = some c) :
    create_safety_ref repo a ts =
      Except.ok { repo with refs := writeRef repo.refs (safetyRefName a ts) h } := by
  have hid := (findCommit_mem_id hc).2
  unfold create_safety_ref
  rw [hh]
  show snapshotAt repo a ts h = _
  unfold snapshotAt
  rw [hc]
  show Except.ok { repo with refs := writeRef repo.refs (safetyRefName a ts) c.id } =
    Except.ok { repo with refs := writeRef repo.refs (safetyRefName a ts) h }
  rw [hid]

theorem headLookup_update_refs {repo : Repo} {n : String} {v : Nat}
    (hne : ∀ t, repo.head = Head.symbolic t → t ≠ n) :
    headLookup { repo with refs := writeRef repo.refs n v } = headLookup repo := by
  unfold headLookup
  cases hh : repo.head with
  | symbolic t =>
    have : t ≠ n := hne t hh
    simp only [hh]
    rw [findRef_writeRef_other _ this]
  | detached o => simp only [hh]

theorem headLookup_applyCherrypick (repo : Repo) (apply : ApplyResult) :
    headLookup (applyCherrypick repo apply) = headLookup repo := rfl

theorem headLookup_applyRevert (repo : Repo) (apply : ApplyResult) :
    headLookup (applyRevert repo apply) = headLookup repo := rfl

theorem findRef_updateHeadTarget {r : Repo} {o : Nat} {n : String}
    (hne : ∀ t, r.head = Head.symbolic t → t ≠ n) :
    findRef (updateHeadTarget r o).refs n = findRef r.refs n := by
  unfold updateHeadTarget
  cases hd : r.head with
  | symbolic t => exact findRef_writeRef_other _ (Ne.symm (hne t hd))
  | detached x => rfl

theorem amendBody_fst_unborn {r1 : Repo} {m : String} {ts o : Nat}
    (h : headLookup r1 = none) : (amendBody r1 m ts o).1 = r1 := by
  unfold amendBody
  cases hconf : r1.index.conflicts with
  | true => simp [hconf]
  | false => simp [hconf, h]

theorem findRef_amendBody {r1 : Repo} {m : String} {ts o : Nat} {n : String}
    (hne : ∀ t, r1.head = Head.symbolic t → t ≠ n) :
    findRef (amendBody r1 m ts o).1.refs n = findRef r1.refs n := by
  unfold amendBody
  cases hconf : r1.index.conflicts with
  | true => simp [hconf]
  | false =>
    cases hh : headLookup r1 with
    | none => simp [hconf, hh]
    | some pr =>
      obtain ⟨no, hoid⟩ := pr
      cases hc : findCommit r1.commits hoid with
      | none => simp [hconf, hh, hc]
      | some last =>
        simp only [hconf, hh, hc, Bool.false_eq_true, if_false]
        exact findRef_updateHeadTarget hne

theorem pickCommitStep_fst_unborn {r2 : Repo} {cm nm : String} {ts o : Nat}
    (h : headLookup r2 = none) : (pickCommitStep r2 cm nm ts o).1 = r2 := by
  unfold pickCommitStep
  cases hconf : r2.index.conflicts with
  | true => simp [hconf]
  | false =>
    cases hsig : r2.signature with
    | none => simp [hconf, hsig]
    | some sig => simp [hconf, hsig, h]

theorem findRef_pickCommitStep {r2 : Repo} {cm nm : String} {ts o : Nat}
    {n : String} (hne : ∀ t, r2.head = Head.symbolic t → t ≠ n) :
    findRef (pickCommitStep r2 cm nm ts o).1.refs n = findRef r2.refs n := by
  unfold pickCommitStep
  cases hconf : r2.index.conflicts with
  | true => simp [hconf]
  | false =>
    cases hsig : r2.signature with
    | none => simp [hconf, hsig]
    | some sig =>
      cases hh : headLookup r2 with
      | none => simp [hconf, hsig, hh]
      | some pr =>
        obtain ⟨no, hoid⟩ := pr
        cases hc : findCommit r2.commits hoid with
        | none => simp [hconf, hsig, hh, hc]
        | some parent =>
          simp only [hconf, hsig, hh, hc, Bool.false_eq_true, if_false]
          exact findRef_updateHeadTarget hne

theorem cherryBody_refs_unborn {r1 : Repo} {sha : Nat} {apply : ApplyResult}
    {ts o : Nat} (h : headLookup r1 = none) :
    (cherryBody r1 sha apply ts o).1.refs = r1.refs := by
  unfold cherryBody
  cases hf : findCommit r1.commits sha with
  | none => rfl
  | some target =>
    have h2 : headLookup (applyCherrypick r1 apply) = none := h
    rw [pickCommitStep_fst_unborn h2]
    rfl

theorem findRef_cherryBody {r1 : Repo} {sha : Nat} {apply : ApplyResult}
    {ts o : Nat} {n : String} (hne : ∀ t, r1.head = Head.symbolic t → t ≠ n) :
    findRef (cherryBody r1 sha apply ts o).1.refs n = findRef r1.refs n := by
  unfold cherryBody
  cases hf : findCommit r1.commits sha with
  | none => rfl
  | some target => exact findRef_pickCommitStep hne

theorem revertBody_refs_unborn {r1 : Repo} {sha : Nat} {apply : ApplyResult}
    {ts o : Nat} (h : headLookup r1 = none) :
    (revertBody r1 sha apply ts o).1.refs = r1.refs := by
  unfold revertBody
  cases hf : findCommit r1.commits sha with
  | none => rfl
  | some target =>
    have h2 : headLookup (applyRevert r1 apply) = none := h
    rw [pickCommitStep_fst_unborn h2]
    rfl

theorem findRef_revertBody {r1 : Repo} {sha : Nat} {apply : ApplyResult}
    {ts o : Nat} {n : String} (hne : ∀ t, r1.head = Head.symbolic t → t ≠ n) :
    findRef (revertBody r1 sha apply ts o).1.refs n = findRef r1.refs n := by
  unfold revertBody
  cases hf : findCommit r1.commits sha with
  | none => rfl
  | some target => exact findRef_pickCommitStep hne

theorem discardAllBody_refs (r1 : Repo) : (discardAllBody r1).1.refs = r1.refs := by
  unfold discardAllBody checkout_head_force
  cases hro : resolveHeadOid r1 with
  | none => rfl
  | some hoid =>
    cases hc : findCommit r1.commits hoid with
    | none => simp [hc]
    | some c =>
      cases hw : r1.workdir with
      | none => simp [hc, hw]
      | some wt => simp [hc, hw]

theorem amend_eq_body {repo r1 : Repo} {ts : Nat}
    (h : create_safety_ref repo "amend" ts = Except.ok r1) (m : String) (o : Nat) :
    amend_last_commit repo m ts o = amendBody r1 m ts o := by
  unfold amend_last_commit
  rw [h]

theorem amend_snapshot_err {repo : Repo} {ts : Nat} {e : String}
    (h : create_safety_ref repo "amend" ts = Except.error e) (m : String) (o : Nat) :
    amend_last_commit repo m ts o = (repo, Except.error e) := by
  unfold amend_last_commit
  rw [h]

theorem cherry_eq_body {repo r1 : Repo} {ts : Nat}
    (h : create_safety_ref repo "cherry-pick" ts = Except.ok r1)
    (sha : Nat) (apply : ApplyResult) (o : Nat) :
    cherry_pick repo sha apply ts o = cherryBody r1 sha apply ts o := by
  unfold cherry_pick
  rw [h]

theorem cherry_snapshot_err {repo : Repo} {ts : Nat} {e : String}
    (h : create_safety_ref repo "cherry-pick" ts = Except.error e)
    (sha : Nat) (apply : ApplyResult) (o : Nat) :
    cherry_pick repo sha apply ts o = (repo, Except.error e) := by
  unfold cherry_pick
  rw [h]

theorem revert_eq_body {repo r1 : Repo} {ts : Nat}
    (h : create_safety_ref repo "revert" ts = Except.ok r1)
    (sha : Nat) (apply : ApplyResult) (o : Nat) :
    revert_commit repo sha apply ts o = revertBody r1 sha apply ts o := by
  unfold revert_commit
  rw [h]

theorem revert_snapshot_err {repo : Repo} {ts : Nat} {e : String}
    (h : create_safety_ref repo "revert" ts = Except.error e)
    (sha : Nat) (apply : ApplyResult) (o : Nat) :
    revert_commit repo sha apply ts o = (repo, Except.error e) := by
  unfold revert_commit
  rw [h]

theorem discard_eq_body_ok {repo r1 : Repo} {ts : Nat}
    (h : create_safety_ref repo "discard-all" ts = Except.ok r1) :
    discard_all_changes repo ts = discardAllBody r1 := by
  unfold discard_all_changes
  rw [h]

theorem discard_eq_body_err {repo : Repo} {ts : Nat} {e : String}
    (h : create_safety_ref repo "discard-all" ts = Except.error e) :
    discard_all_changes repo ts = discardAllBody repo := by
  unfold discard_all_changes
  rw [h]

/-! ## C1: the safety snapshot protocol -/

/-- C1: for every destructive operation (amend, cherry-pick, revert,
discard-all), when HEAD does not resolve (unborn branch) the snapshot
succeeds as a no-op and the operation creates no reference, and when HEAD
resolves to an existing commit, the resulting state of the operation —
whatever its outcome, so in particular before and independently of any
later state change — binds the safety reference
refs/safety/label/unix-timestamp to the commit HEAD resolved to
immediately before the operation. -/
theorem c1_safety_snapshot (repo : Repo) (ts newOid sha : Nat) (msg : String)
    (apply : ApplyResult) (hbr : headIsBranchRef repo = true) :
    (headLookup repo = none →
      (amend_last_commit repo msg ts newOid).1.refs = repo.refs ∧
      (cherry_pick repo sha apply ts newOid).1.refs = repo.refs ∧
      (revert_commit repo sha apply ts newOid).1.refs = repo.refs ∧
      (discard_all_changes repo ts).1.refs = repo.refs) ∧
    (∀ (no : Option String) (h : Nat) (c : Commit),
      headLookup repo = some (no, h) → findCommit repo.commits h = some c →
      findRef (amend_last_commit repo msg ts newOid).1.refs
        (safetyRefName "amend" ts) = some h ∧
      findRef (cherry_pick repo sha apply ts newOid).1.refs
        (safetyRefName "cherry-pick" ts) = some h ∧
      findRef (revert_commit repo sha apply ts newOid).1.refs
        (safetyRefName "revert" ts) = some h ∧
      findRef (discard_all_changes repo ts).1.refs
        (safetyRefName "discard-all" ts) = some h) := by
  constructor
  · intro hun
    refine ⟨?_, ?_, ?_, ?_⟩
    · rw [amend_eq_body (create_safety_ref_unborn hun) msg newOid,
        amendBody_fst_unborn hun]
    · rw [cherry_eq_body (create_safety_ref_unborn hun) sha apply newOid,
        cherryBody_refs_unborn hun]
    · rw [revert_eq_body (create_safety_ref_unborn hun) sha apply newOid,
        revertBody_refs_unborn hun]
    · rw [discard_eq_body_ok (create_safety_ref_unborn hun),
        discardAllBody_refs]
  · intro no h c hh hc
    refine ⟨?_, ?_, ?_, ?_⟩
    · rw [amend_eq_body (create_safety_ref_born hh hc) msg newOid]
      refine Eq.trans (findRef_amendBody ?_) (findRef_writeRef_self _ _ _)
      intro t ht
      exact head_target_ne_safety hbr ht
    · rw [cherry_eq_body (create_safety_ref_born hh hc) sha apply newOid]
      refine Eq.trans (findRef_cherryBody ?_) (findRef_writeRef_self _ _ _)
      intro t ht
      exact head_target_ne_safety hbr ht
    · rw [revert_eq_body (create_safety_ref_born hh hc) sha apply newOid]
      refine Eq.trans (findRef_revertBody ?_) (findRef_writeRef_self _ _ _)
      intro t ht
      exact head_target_ne_safety hbr ht
    · rw [discard_eq_body_ok (create_safety_ref_born hh hc), discardAllBody_refs]
      exact findRef_writeRef_self _ _ _

/-- A one-commit sample repository on branch main, used as concrete input
by the witnesses. -/
def wCommit1 : Commit :=
  { id := 1, message := "init", author := "Ann", email := "ann@example.com",
    timestamp := 0, parents := [], tree := [("f.txt", 10)] }

def wRepo1 : Repo :=
  { commits := [wCommit1], refs := [("refs/heads/main", 1)],
    head := Head.symbolic "refs/heads/main", branchConfig := [],
    index := { entries := [("f.txt", 10)], conflicts := false },
    workdir := some [("f.txt", 10)], workdirPath := "/tmp/r",
    signature := some ("Ann", "ann@example.com"), opState := RepoOpState.idle }

def wApply : ApplyResult := { entries := [("f.txt", 11)], conflicts := false }

/-- C1 witness: the four destructive operations on the sample repository
all leave the safety ref bound to the pre-operation HEAD commit. -/
theorem c1_safety_snapshot_witness :
    headIsBranchRef wRepo1 = true ∧
    headLookup wRepo1 = some (some "refs/heads/main", 1) ∧
    findCommit wRepo1.commits 1 = some wCommit1 ∧
    (findRef (amend_last_commit wRepo1 "msg2" 100 2).1.refs
        (safetyRefName "amend" 100) = some 1 ∧
      findRef (cherry_pick wRepo1 1 wApply 100 2).1.refs
        (safetyRefName "cherry-pick" 100) = some 1 ∧
      findRef (revert_commit wRepo1 1 wApply 100 2).1.refs
        (safetyRefName "revert" 100) = some 1 ∧
      findRef (discard_all_changes wRepo1 100).1.refs
        (safetyRefName "discard-all" 100) = some 1) :=
  ⟨rfl, rfl, rfl,
    (c1_safety_snapshot wRepo1 100 2 1 "msg2" wApply rfl).2
      (some "refs/heads/main") 1 wCommit1 rfl rfl⟩

/-! ## C2: fatality of snapshot failure -/

/-- A repository whose HEAD resolves to a ref entry but whose commit object
is missing from the store, so peeling HEAD fails and the snapshot errors. -/
def wRepoBroken : Repo :=
  { commits := [], refs := [("refs/heads/main", 5)],
    head := Head.symbolic "refs/heads/main", branchConfig := [],
    index := { entries := [], conflicts := false },
    workdir := some [], workdirPath := "/tmp/b",
    signature := some ("Ann", "ann@example.com"), opState := RepoOpState.idle }

/-- C2 counterexample: when the snapshot fails even though a commit should
exist, amend, cherry-pick and revert return the snapshot error and leave
the state untouched — they do not proceed, contradicting the claim that the
failure is non-fatal for every destructive operation. -/
theorem c2_counterexample :
    create_safety_ref wRepoBroken "amend" 7 = Except.error "object not found" ∧
    (amend_last_commit wRepoBroken "m" 7 9).2 = Except.error "object not found" ∧
    (cherry_pick wRepoBroken 5 wApply 7 9).2 = Except.error "object not found" ∧
    (revert_commit wRepoBroken 5 wApply 7 9).2 = Except.error "object not found" ∧
    (amend_last_commit wRepoBroken "m" 7 9).1 = wRepoBroken := by
  refine ⟨rfl, rfl, rfl, rfl, rfl⟩

theorem create_safety_ref_err_any {repo : Repo} {a : String} {ts : Nat}
    {e : String} (h : create_safety_ref repo a ts = Except.error e)
    (b : String) : create_safety_ref repo b ts = Except.error e := by
  unfold create_safety_ref at h ⊢
  cases hh : headLookup repo with
  | none =>
    rw [hh] at h
    exact (Except.noConfusion h)
  | some pr =>
    obtain ⟨no, oid⟩ := pr
    rw [hh] at h
    have h' : snapshotAt repo a ts oid = Except.error e := h
    show snapshotAt repo b ts oid = Except.error e
    unfold snapshotAt at h' ⊢
    cases hc : findCommit repo.commits oid with
    | none =>
      rw [hc] at h'
      exact h'
    | some c =>
      rw [hc] at h'
      exact (Except.noConfusion h')

/-- C2 amended: a failing snapshot (HEAD resolves but cannot be peeled to a
commit, or the ref cannot be written) is fatal for amend, cherry-pick and
revert — the snapshot error is returned and the repository is unchanged —
and is ignored only by discard-all, which proceeds to attempt the forced
checkout on the unchanged state; no warning is reported anywhere.  (When
HEAD does not resolve at all — unborn branch — the snapshot succeeds as a
no-op and every operation proceeds, as in the C1 theorem.) -/
theorem c2_amended (repo : Repo) (ts newOid sha : Nat) (msg : String)
    (apply : ApplyResult) (e : String)
    (h : create_safety_ref repo "amend" ts = Except.error e) :
    amend_last_commit repo msg ts newOid = (repo, Except.error e) ∧
    cherry_pick repo sha apply ts newOid = (repo, Except.error e) ∧
    revert_commit repo sha apply ts newOid = (repo, Except.error e) ∧
    discard_all_changes repo ts = discardAllBody repo := by
  refine ⟨amend_snapshot_err h msg newOid, ?_, ?_, ?_⟩
  · exact cherry_snapshot_err (create_safety_ref_err_any h _) sha apply newOid
  · exact revert_snapshot_err (create_safety_ref_err_any h _) sha apply newOid
  · exact discard_eq_body_err (create_safety_ref_err_any h _)

/-- C2 amended witness, on the broken sample repository. -/
theorem c2_amended_witness :
    create_safety_ref wRepoBroken "amend" 7 = Except.error "object not found" ∧
    (amend_last_commit wRepoBroken "m" 7 9 = (wRepoBroken, Except.error "object not found") ∧
      cherry_pick wRepoBroken 5 wApply 7 9 = (wRepoBroken, Except.error "object not found") ∧
      revert_commit wRepoBroken 5 wApply 7 9 = (wRepoBroken, Except.error "object not found") ∧
      discard_all_changes wRepoBroken 7 = discardAllBody wRepoBroken) :=
  ⟨rfl, c2_amended wRepoBroken 7 9 5 "m" wApply "object not found" rfl⟩

/-! ## C3: additivity of safety refs -/

/-- The state after a first snapshot of the sample repository with label
amend at timestamp 100. -/
def c3s1 : Repo :=
  match create_safety_ref wRepo1 "amend" 100 with
  | Except.ok r => r
  | Except.error _ => wRepo1

/-- An amend then moves HEAD to a new commit (id 2). -/
def c3s2 : Repo := (amend_last_commit c3s1 "second" 101 2).1

/-- A second snapshot with the same label and the same timestamp. -/
def c3s3 : Repo :=
  match create_safety_ref c3s2 "amend" 100 with
  | Except.ok r => r
  | Except.error _ => c3s2

/-- C3 counterexample: two snapshot calls with the same label and the same
unix timestamp produce the same ref name, and the second call overwrites
the reference written by the first (force flag): the binding moves from
commit 1 to commit 2 and only one binding of the name remains, so the
timestamp does not disambiguate them and safety refs are not purely
additive. -/
theorem c3_counterexample :
    findRef c3s1.refs (safetyRefName "amend" 100) = some 1 ∧
    findRef c3s3.refs (safetyRefName "amend" 100) = some 2 ∧
    (c3s3.refs.filter (fun r => r.1 == safetyRefName "amend" 100)).length = 1 := by
  refine ⟨rfl, rfl, rfl⟩

theorem create_safety_ref_ok_cases {repo r1 : Repo} {a : String} {ts : Nat}
    (h : create_safety_ref repo a ts = Except.ok r1) :
    r1 = repo ∨ ∃ oid, r1 =
      { repo with refs := writeRef repo.refs (safetyRefName a ts) oid } := by
  unfold create_safety_ref at h
  cases hh : headLookup repo with
  | none =>
    rw [hh] at h
    injection h with h
    exact Or.inl h.symm
  | some pr =>
    obtain ⟨no, oid⟩ := pr
    rw [hh] at h
    have h' : snapshotAt repo a ts oid = Except.ok r1 := h
    unfold snapshotAt at h'
    cases hc : findCommit repo.commits oid with
    | none =>
      rw [hc] at h'
      exact (Except.noConfusion h')
    | some c =>
      rw [hc] at h'
      injection h' with h'
      exact Or.inr ⟨c.id, h'.symm⟩

/-- C3 amended: a second snapshot call never replaces the reference written
by the first provided the two calls produce distinct ref names — which
distinct labels or distinct timestamps do, their decimal rendering being
part of the name; only a pair with the same label in the same second
collides, and then the second call force-overwrites the first, as the
counterexample shows. -/
theorem c3_amended (repo r1 r2 : Repo) (a1 a2 : String) (t1 t2 : Nat)
    (h1 : create_safety_ref repo a1 t1 = Except.ok r1)
    (h2 : create_safety_ref r1 a2 t2 = Except.ok r2)
    (hne : safetyRefName a1 t1 ≠ safetyRefName a2 t2) :
    findRef r2.refs (safetyRefName a1 t1) = findRef r1.refs (safetyRefName a1 t1) := by
  rcases create_safety_ref_ok_cases h2 with heq | ⟨oid, heq⟩
  · rw [heq]
  · rw [heq]
    exact findRef_writeRef_other _ hne

/-! ## C4: pushed marking in commit history -/

/-- C4: for every commit in the history computed from HEAD, when an
upstream tip u is configured, is_pushed is true exactly when u is
reachable-from-or-equal-to the commit (the commit equals u or is a strict
ancestor of u), and a commit strictly ahead of u (u a strict ancestor of
it) has is_pushed false. -/
theorem c4_is_pushed (repo : Repo) (limit : Nat) (infos : List CommitInfo)
    (ci : CommitInfo) (u : Nat) (hwf : WfCommits repo.commits)
    (hh : get_commit_history repo limit = Except.ok infos)
    (hmem : ci ∈ infos) (hup : historyUpstreamOid repo = some u) :
    (ci.is_pushed = true ↔ (ci.sha = u ∨ Reaches repo.commits u ci.sha)) ∧
    (Reaches repo.commits ci.sha u → ci.is_pushed = false) := by
  unfold get_commit_history at hh
  cases hr : resolveHeadOid repo with
  | none =>
    rw [hr] at hh
    exact (Except.noConfusion hh)
  | some hd =>
    rw [hr] at hh
    injection hh with hh
    rw [← hh] at hmem
    rw [List.mem_filterMap] at hmem
    obtain ⟨oid, hoidmem, hmk⟩ := hmem
    unfold mkCommitInfo at hmk
    cases hc : findCommit repo.commits oid with
    | none =>
      rw [hc] at hmk
      exact (Option.noConfusion hmk)
    | some c =>
      rw [hc] at hmk
      rw [Option.map_some'] at hmk
      injection hmk with hmk
      have hcid : c.id = oid := (findCommit_mem_id hc).2
      have hsha : ci.sha = oid := by rw [← hmk, hcid]
      have hpush : ci.is_pushed =
          (graph_descendant_of repo.commits u oid || u == oid) := by
        rw [← hmk]
        show (match historyUpstreamOid repo with
          | some u => graph_descendant_of repo.commits u oid || u == oid
          | none => false) = _
        rw [hup]
      constructor
      · rw [hpush, hsha]
        constructor
        · intro hp
          rcases Bool.or_eq_true_iff.mp hp with hd2 | he
          · exact Or.inr (descFuel_sound hd2)
          · exact Or.inl (beq_iff_eq.mp he).symm
        · intro hp
          rcases hp with he | hr2
          · exact Bool.or_eq_true_iff.mpr (Or.inr (beq_iff_eq.mpr he.symm))
          · exact Bool.or_eq_true_iff.mpr
              (Or.inl ((descFuel_iff_reaches hwf).mpr hr2))
      · intro hru
        rw [hsha] at hru
        have hlt : u < oid := reaches_lt hwf hru
        rw [hpush]
        have hdesc : graph_descendant_of repo.commits u oid = false := by
          cases hdc : graph_descendant_of repo.commits u oid with
          | false => rfl
          | true =>
            have := reaches_lt hwf (descFuel_sound hdc)
            omega
        have hne : (u == oid) = false := beq_eq_false_iff_ne.mpr (by omega)
        rw [hdesc, hne]
        rfl

/-- Sample history: three commits in a line, upstream tip at commit 2. -/
def wCommitH1 : Commit :=
  { id := 1, message := "one", author := "Ann", email := "ann@example.com",
    timestamp := 1, parents := [], tree := [] }

def wCommitH2 : Commit :=
  { id := 2, message := "two", author := "Ann", email := "ann@example.com",
    timestamp := 2, parents := [1], tree := [] }

def wCommitH3 : Commit :=
  { id := 3, message := "three", author := "Ann", email := "ann@example.com",
    timestamp := 3, parents := [2], tree := [] }

def wRepoH : Repo :=
  { commits := [wCommitH1, wCommitH2, wCommitH3],
    refs := [("refs/heads/main", 3), ("refs/remotes/origin/main", 2)],
    head := Head.symbolic "refs/heads/main",
    branchConfig := [("refs/heads/main", "refs/remotes/origin/main")],
    index := { entries := [], conflicts := false },
    workdir := some [], workdirPath := "/tmp/h",
    signature := some ("Ann", "ann@example.com"), opState := RepoOpState.idle }

def wInfoH3 : CommitInfo :=
  { sha := 3, message := "three", author := "Ann", email := "ann@example.com",
    timestamp := 3, is_pushed := false, parents := [2] }

def wInfoH2 : CommitInfo :=
  { sha := 2, message := "two", author := "Ann", email := "ann@example.com",
    timestamp := 2, is_pushed := true, parents := [1] }

def wInfoH1 : CommitInfo :=
  { sha := 1, message := "one", author := "Ann", email := "ann@example.com",
    timestamp := 1, is_pushed := true, parents := [] }

/-- C4 witness: on the sample history, the commit equal to the upstream tip
is marked pushed, and the marking of every entry satisfies the
reachability characterization. -/
theorem c4_is_pushed_witness :
    WfCommits wRepoH.commits ∧
    get_commit_history wRepoH 10 = Except.ok [wInfoH3, wInfoH2, wInfoH1] ∧
    wInfoH2 ∈ [wInfoH3, wInfoH2, wInfoH1] ∧
    historyUpstreamOid wRepoH = some 2 ∧
    ((wInfoH2.is_pushed = true) ↔
      (wInfoH2.sha = 2 ∨ Reaches wRepoH.commits 2 wInfoH2.sha)) ∧
    (Reaches wRepoH.commits wInfoH2.sha 2 → wInfoH2.is_pushed = false) :=
  ⟨by decide, rfl, by decide, rfl,
    (c4_is_pushed wRepoH 10 [wInfoH3, wInfoH2, wInfoH1] wInfoH2 2 (by decide)
      rfl (by decide) rfl).1,
    (c4_is_pushed wRepoH 10 [wInfoH3, wInfoH2, wInfoH1] wInfoH2 2 (by decide)
      rfl (by decide) rfl).2⟩

/-! ## C5: the recent-repositories list -/

/-- Discriminator for clone steps (which lack the truncation). -/
def isClone : RecentOp → Bool
  | RecentOp.cloneOk _ => true
  | _ => false

def c5ops : List RecentOp :=
  [RecentOp.cloneOk "p01", RecentOp.cloneOk "p02", RecentOp.cloneOk "p03",
   RecentOp.cloneOk "p04", RecentOp.cloneOk "p05", RecentOp.cloneOk "p06",
   RecentOp.cloneOk "p07", RecentOp.cloneOk "p08", RecentOp.cloneOk "p09",
   RecentOp.cloneOk "p10", RecentOp.cloneOk "p11"]

/-- C5 counterexample: eleven clones grow the recent list to 11 entries
(clone_repository performs no truncation), and re-opening an already listed
path does not move it to the front (open_repository only inserts when the
path is absent), so the list is neither capped at 10 under clones nor
most-recent-first under re-opens. -/
theorem c5_counterexample :
    (recentRun c5ops).length = 11 ∧
    recentStep (recentStep (recentStep [] (RecentOp.openOk "a"))
      (RecentOp.openOk "b")) (RecentOp.openOk "a") = ["b", "a"] := by
  refine ⟨by decide, by decide⟩

theorem recentStep_nodup {l : List String} (h : l.Nodup) (op : RecentOp) :
    (recentStep l op).Nodup := by
  cases op with
  | openOk p =>
    simp only [recentStep]
    by_cases hp : p ∈ l
    · rw [if_pos hp]
      exact h
    · rw [if_neg hp]
      exact ((List.nodup_cons).mpr ⟨hp, h⟩).sublist (List.take_sublist _ _)
  | cloneOk p =>
    simp only [recentStep]
    by_cases hp : p ∈ l
    · rw [if_pos hp]
      exact h
    · rw [if_neg hp]
      exact (List.nodup_cons).mpr ⟨hp, h⟩
  | openMissing p =>
    simp only [recentStep]
    exact h.sublist (List.filter_sublist _)

theorem recentStep_len_le {l : List String} (h : l.length ≤ 10)
    (op : RecentOp) (hop : isClone op = false) :
    (recentStep l op).length ≤ 10 := by
  cases op with
  | openOk p =>
    simp only [recentStep]
    by_cases hp : p ∈ l
    · rw [if_pos hp]
      exact h
    · rw [if_neg hp]
      exact List.length_take_le _ _
  | cloneOk p => exact absurd hop (by simp [isClone])
  | openMissing p =>
    simp only [recentStep]
    exact le_trans (List.length_filter_le _ _) h

theorem recentRun_aux_nodup :
    ∀ (ops : List RecentOp) (l : List String), l.Nodup →
      (ops.foldl recentStep l).Nodup := by
  intro ops
  induction ops with
  | nil => intro l h; exact h
  | cons op rest ih =>
    intro l h
    exact ih _ (recentStep_nodup h op)

theorem recentRun_aux_len :
    ∀ (ops : List RecentOp) (l : List String), l.length ≤ 10 →
      (∀ op ∈ ops, isClone op = false) →
      (ops.foldl recentStep l).length ≤ 10 := by
  intro ops
  induction ops with
  | nil => intro l h _; exact h
  | cons op rest ih =>
    intro l h hops
    exact ih _ (recentStep_len_le h op (hops op (by simp)))
      (fun o ho => hops o (by simp [ho]))

/-- C5 amended: after any sequence of open and clone operations starting
from the empty list the recent-repositories list never contains duplicate
paths; when the sequence contains no clone it also never exceeds 10
entries (clone_repository performs no truncation); a path not already
present is placed at the front by both open and clone, but an operation on
a path already present leaves the list unchanged, so most-recent-first
does not hold across re-opens. -/
theorem c5_amended (ops : List RecentOp) :
    (recentRun ops).Nodup ∧
    ((∀ op ∈ ops, isClone op = false) → (recentRun ops).length ≤ 10) ∧
    (∀ (l : List String) (p : String), p ∉ l →
      (recentStep l (RecentOp.openOk p)).head? = some p ∧
      (recentStep l (RecentOp.cloneOk p)).head? = some p) ∧
    (∀ (l : List String) (p : String), p ∈ l →
      recentStep l (RecentOp.openOk p) = l ∧
      recentStep l (RecentOp.cloneOk p) = l) := by
  refine ⟨recentRun_aux_nodup ops [] List.nodup_nil,
    fun hops => recentRun_aux_len ops [] (by simp) hops, ?_, ?_⟩
  · intro l p hp
    constructor
    · simp only [recentStep]
      rw [if_neg hp]
      cases l with
      | nil => rfl
      | cons a rest => rfl
    · simp only [recentStep]
      rw [if_neg hp]
      rfl
  · intro l p hp
    constructor
    · simp only [recentStep]
      rw [if_pos hp]
    · simp only [recentStep]
      rw [if_pos hp]

def c5wOps : List RecentOp := [RecentOp.openOk "a", RecentOp.openOk "b"]

/-- C5 amended witness on a concrete clone-free sequence. -/
theorem c5_amended_witness :
    (recentRun c5wOps).Nodup ∧
    (∀ op ∈ c5wOps, isClone op = false) ∧
    (recentRun c5wOps).length ≤ 10 ∧
    ("a" ∉ (["b"] : List String)) ∧
    (recentStep ["b"] (RecentOp.openOk "a")).head? = some "a" ∧
    ("a" ∈ (["a"] : List String)) ∧
    recentStep ["a"] (RecentOp.openOk "a") = ["a"] :=
  ⟨(c5_amended c5wOps).1, by decide,
   (c5_amended c5wOps).2.1 (by decide), by decide,
   ((c5_amended c5wOps).2.2.1 ["b"] "a" (by decide)).1, by decide,
   ((c5_amended c5wOps).2.2.2 ["a"] "a" (by decide)).1⟩

/-! ## C6 and C10: staging warnings and the commit command -/

theorem cmd_dispatch {st : AppState} {repo : Repo}
    (hrepo : st.repo = some repo) {files : List String} {r1 : Repo}
    {sr : StageResult} (hsf : stage_files repo files = Except.ok (r1, sr))
    (msg : String) (ts newOid : Nat) :
    create_commit_cmd st msg files ts newOid =
      commitAfterStage st msg ts newOid r1 sr := by
  have h1 : create_commit_cmd st msg files ts newOid =
      (match stage_files repo files with
       | Except.error e => Except.error e
       | Except.ok (r1, sr) => commitAfterStage st msg ts newOid r1 sr) := by
    unfold create_commit_cmd
    rw [hrepo]
  rw [h1, hsf]

theorem stageLoop_lookup_not_mem {wt : List (String × Nat)} {p : String}
    (hp : lookupPath wt p = none) :
    ∀ (paths : List String) (idx : List (String × Nat)), p ∉ paths →
      lookupPath (stageLoop wt paths idx).1 p = lookupPath idx p := by
  intro paths
  induction paths with
  | nil => intro idx _; rfl
  | cons q rest ih =>
    intro idx hnp
    have hq : p ≠ q := fun he => hnp (he ▸ List.mem_cons_self q rest)
    have hrest : p ∉ rest := fun hm => hnp (List.mem_cons_of_mem q hm)
    simp only [stageLoop]
    cases hlq : lookupPath wt q with
    | some v =>
      rw [ih _ hrest]
      exact lookupPath_upsert_other v hq
    | none =>
      rw [ih _ hrest]
      exact lookupPath_erase_other hq

theorem stageLoop_lookup_missing {wt : List (String × Nat)} {p : String}
    (hp : lookupPath wt p = none) :
    ∀ (paths : List String) (idx : List (String × Nat)), p ∈ paths →
      lookupPath (stageLoop wt paths idx).1 p = none := by
  intro paths
  induction paths with
  | nil => intro idx hm; exact absurd hm (List.not_mem_nil p)
  | cons q rest ih =>
    intro idx hm
    simp only [stageLoop]
    by_cases hpq : p = q
    · subst hpq
      rw [hp]
      by_cases hr : p ∈ rest
      · exact ih _ hr
      · rw [stageLoop_lookup_not_mem hp rest _ hr]
        exact lookupPath_erase_self _ p
    · have hr : p ∈ rest := by
        rcases List.mem_cons.mp hm with he | hr
        · exact absurd he hpq
        · exact hr
      cases hlq : lookupPath wt q with
      | some v => exact ih _ hr
      | none => exact ih _ hr

theorem stageLoop_warn_of_missing {wt : List (String × Nat)} {p : String}
    (hp : lookupPath wt p = none) :
    ∀ (paths : List String) (idx : List (String × Nat)), p ∈ paths →
      missingWarn p ∈ (stageLoop wt paths idx).2.2 := by
  intro paths
  induction paths with
  | nil => intro idx hm; exact absurd hm (List.not_mem_nil p)
  | cons q rest ih =>
    intro idx hm
    simp only [stageLoop]
    by_cases hpq : p = q
    · subst hpq
      rw [hp]
      exact List.mem_cons_self _ _
    · have hr : p ∈ rest := by
        rcases List.mem_cons.mp hm with he | hr
        · exact absurd he hpq
        · exact hr
      cases hlq : lookupPath wt q with
      | some v => exact ih _ hr
      | none => exact List.mem_cons_of_mem _ (ih _ hr)

theorem stageLoop_all_missing {wt : List (String × Nat)} :
    ∀ (paths : List String) (idx : List (String × Nat)),
      (∀ p ∈ paths, lookupPath wt p = none) →
      (stageLoop wt paths idx).2.1 = [] ∧
      (stageLoop wt paths idx).2.2 = paths.map missingWarn := by
  intro paths
  induction paths with
  | nil => intro idx _; exact ⟨rfl, rfl⟩
  | cons q rest ih =>
    intro idx hall
    simp only [stageLoop]
    rw [hall q (List.mem_cons_self q rest)]
    have := ih (erasePath idx q) (fun p hp => hall p (List.mem_cons_of_mem q hp))
    simp only [List.map_cons]
    exact ⟨this.1, by rw [this.2]⟩

/-- C6: every requested path absent from disk is removed from the index and
yields a per-path warning rather than an error, and a commit request whose
paths all fall in this case is rejected with the nothing-to-stage
precondition failure, so no empty commit is created. -/
theorem c6_stage_missing_paths (repo : Repo) (paths : List String)
    (wt : List (String × Nat)) (hw : repo.workdir = some wt)
    (r1 : Repo) (sr : StageResult)
    (hs : stage_files repo paths = Except.ok (r1, sr)) :
    (∀ p ∈ paths, lookupPath wt p = none →
      lookupPath r1.index.entries p = none ∧ missingWarn p ∈ sr.warnings) ∧
    ((∀ p ∈ paths, lookupPath wt p = none) → paths ≠ [] →
      ∀ (st : AppState), st.repo = some repo → ∀ (msg : String) (ts newOid : Nat),
        create_commit_cmd st msg paths ts newOid =
          Except.error ("No files could be staged: " ++
            String.intercalate "; " sr.warnings)) := by
  have hs0 := hs
  unfold stage_files at hs
  rw [hw] at hs
  injection hs with hs
  rw [Prod.mk.injEq] at hs
  have hidx : r1.index.entries = (stageLoop wt paths repo.index.entries).1 := by
    rw [← hs.1]
  have hstaged : sr.staged = (stageLoop wt paths repo.index.entries).2.1 := by
    rw [← hs.2]
  have hwarn : sr.warnings = (stageLoop wt paths repo.index.entries).2.2 := by
    rw [← hs.2]
  constructor
  · intro p hp hmiss
    constructor
    · rw [hidx]
      exact stageLoop_lookup_missing hmiss paths _ hp
    · rw [hwarn]
      exact stageLoop_warn_of_missing hmiss paths _ hp
  · intro hall hne st hst msg ts newOid
    have hempty := stageLoop_all_missing paths repo.index.entries hall
    rw [cmd_dispatch hst hs0 msg ts newOid]
    unfold commitAfterStage
    have hguard : (sr.staged.isEmpty && !sr.warnings.isEmpty) = true := by
      rw [hstaged, hwarn, hempty.1, hempty.2]
      cases paths with
      | nil => exact absurd rfl hne
      | cons a l => rfl
    rw [if_pos hguard]

/-- A repository whose index holds a tracked file that was deleted from the
working tree, for the staging witnesses. -/
def wWtC6 : List (String × Nat) := [("a.txt", 1)]

def wRepoC6 : Repo :=
  { commits := [wCommit1], refs := [("refs/heads/main", 1)],
    head := Head.symbolic "refs/heads/main", branchConfig := [],
    index := { entries := [("gone.txt", 5)], conflicts := false },
    workdir := some wWtC6, workdirPath := "/tmp/c6",
    signature := some ("Ann", "ann@example.com"), opState := RepoOpState.idle }

def wStC6 : AppState :=
  { repo := some wRepoC6, recent_repositories := [],
    last_opened_repository := none }

def wSrC6 : StageResult :=
  { staged := [], warnings := [missingWarn "gone.txt"] }

/-- C6 witness: staging the externally deleted gone.txt removes it from the
index, records the warning, and the commit command reports the
nothing-to-stage failure. -/
theorem c6_stage_missing_paths_witness :
    wRepoC6.workdir = some wWtC6 ∧
    stage_files wRepoC6 ["gone.txt"] =
      Except.ok ({ wRepoC6 with index := { entries := [], conflicts := false } }, wSrC6) ∧
    lookupPath wWtC6 "gone.txt" = none ∧
    (lookupPath ({ wRepoC6 with index := { entries := [], conflicts := false } } : Repo).index.entries
        "gone.txt" = none ∧
      missingWarn "gone.txt" ∈ wSrC6.warnings) ∧
    create_commit_cmd wStC6 "m" ["gone.txt"] 0 9 =
      Except.error ("No files could be staged: " ++
        String.intercalate "; " wSrC6.warnings) :=
  ⟨rfl, rfl, rfl,
    (c6_stage_missing_paths wRepoC6 ["gone.txt"] wWtC6 rfl
        ({ wRepoC6 with index := { entries := [], conflicts := false } })
        wSrC6 rfl).1 "gone.txt" (by decide) rfl,
    (c6_stage_missing_paths wRepoC6 ["gone.txt"] wWtC6 rfl
        ({ wRepoC6 with index := { entries := [], conflicts := false } })
        wSrC6 rfl).2
      (by intro p hp; rw [List.mem_singleton.mp hp]; rfl) (by decide)
      wStC6 rfl "m" 0 9⟩

theorem updateHeadTarget_commits (r : Repo) (o : Nat) :
    (updateHeadTarget r o).commits = r.commits := by
  unfold updateHeadTarget
  cases hd : r.head with
  | symbolic t => rfl
  | detached x => rfl

/-- C10: the commit command with an empty list of paths to stage produces
neither staged paths nor warnings, so the nothing-to-stage guard does not
fire: the index is written as a tree and a commit is created from it. -/
theorem c10_empty_stage_commits (st : AppState) (repo : Repo) (msg : String)
    (ts newOid : Nat) (hrepo : st.repo = some repo)
    (wt : List (String × Nat)) (hw : repo.workdir = some wt)
    (hconf : repo.index.conflicts = false) :
    ∃ r2 : Repo, create_commit_cmd st msg [] ts newOid =
      Except.ok (newOid, { st with repo := some r2 }) ∧
      ∃ c ∈ r2.commits, c.id = newOid ∧ c.message = msg ∧
        c.tree = repo.index.entries := by
  have hsf1 : stage_files repo [] =
      Except.ok ({ repo with
          index := { entries := (stageLoop wt [] repo.index.entries).1,
                     conflicts := repo.index.conflicts },
          workdir := some wt },
        { staged := (stageLoop wt [] repo.index.entries).2.1,
          warnings := (stageLoop wt [] repo.index.entries).2.2 }) := by
    unfold stage_files
    rw [hw]
  have hsf : stage_files repo [] =
      Except.ok (repo, { staged := [], warnings := [] }) := by
    rw [hsf1, ← hw]
    rfl
  have hcc : ∃ r2, create_commit repo msg ts newOid = Except.ok (r2, newOid) ∧
      ∃ c ∈ r2.commits, c.id = newOid ∧ c.message = msg ∧
        c.tree = repo.index.entries := by
    unfold create_commit
    simp only [hconf, Bool.false_eq_true, if_false]
    refine ⟨_, rfl, ?_⟩
    rw [updateHeadTarget_commits]
    exact ⟨_, List.mem_cons_self _ _, rfl, rfl, rfl⟩
  obtain ⟨r2, hcc2, hcm⟩ := hcc
  refine ⟨r2, ?_, hcm⟩
  rw [cmd_dispatch hrepo hsf msg ts newOid]
  unfold commitAfterStage
  rw [if_neg (by decide)]
  rw [hcc2]

/-- C10 witness: committing with an empty path list on the sample
repository succeeds and creates a commit from the current index. -/
theorem c10_empty_stage_commits_witness :
    wStC6.repo = some wRepoC6 ∧ wRepoC6.workdir = some wWtC6 ∧
    wRepoC6.index.conflicts = false ∧
    (∃ r2 : Repo, create_commit_cmd wStC6 "from index" [] 5 42 =
      Except.ok (42, { wStC6 with repo := some r2 }) ∧
      ∃ c ∈ r2.commits, c.id = 42 ∧ c.message = "from index" ∧
        c.tree = wRepoC6.index.entries) :=
  ⟨rfl, rfl, rfl,
    c10_empty_stage_commits wStC6 wRepoC6 "from index" 5 42 rfl wWtC6 rfl rfl⟩

/-! ## C8: cherry-pick and revert outcomes -/

theorem pickCommitStep_conflicts {r2 : Repo} {cm nm : String} {ts o : Nat}
    (hc2 : r2.index.conflicts = true) :
    pickCommitStep r2 cm nm ts o = (r2, Except.error cm) := by
  unfold pickCommitStep
  rw [if_pos hc2]

theorem pickCommitStep_success {r2 : Repo} {cm nm : String} {ts o : Nat}
    {sig : String × String} {no : Option String} {h : Nat} {parent : Commit}
    (hc2 : r2.index.conflicts = false) (hsig2 : r2.signature = some sig)
    (hh2 : headLookup r2 = some (no, h))
    (hcp : findCommit r2.commits h = some parent) :
    pickCommitStep r2 cm nm ts o =
      (cleanup_state (updateHeadTarget (addCommit r2
        { id := o, message := nm, author := sig.1, email := sig.2,
          timestamp := (ts : Int), parents := [parent.id],
          tree := r2.index.entries }) o), Except.ok ()) := by
  unfold pickCommitStep
  simp only [hc2, Bool.false_eq_true, if_false, hsig2, hh2, hcp]

theorem cleanup_state_commits (r : Repo) : (cleanup_state r).commits = r.commits := rfl

theorem cleanup_state_opState (r : Repo) : (cleanup_state r).opState = RepoOpState.idle := rfl

theorem updateHeadTarget_opState (r : Repo) (o : Nat) :
    (updateHeadTarget r o).opState = r.opState := by
  unfold updateHeadTarget
  cases hd : r.head with
  | symbolic t => rfl
  | detached x => rfl

/-- C8: for cherry-pick and revert of a found target commit on a healthy
repository, a conflicting apply aborts the commit step with the distinct
conflict message, leaving the conflict state and the in-progress sequencer
state in place and creating no commit; a conflict-free apply synthesizes a
commit with the pre-operation HEAD as sole parent — message the original
one for cherry-pick and Revert "original" for revert — and clears the
sequencer state. -/
theorem c8_conflict_or_commit (repo : Repo) (sha ts newOid : Nat)
    (apply : ApplyResult) (no : Option String) (h : Nat) (c target : Commit)
    (sig : String × String)
    (hbr : headIsBranchRef repo = true)
    (hh : headLookup repo = some (no, h))
    (hc : findCommit repo.commits h = some c)
    (htarget : findCommit repo.commits sha = some target)
    (hsig : repo.signature = some sig) :
    (apply.conflicts = true →
      (cherry_pick repo sha apply ts newOid).2 =
        Except.error "Cherry-pick resulted in conflicts. Please resolve them." ∧
      (cherry_pick repo sha apply ts newOid).1.index.conflicts = true ∧
      (cherry_pick repo sha apply ts newOid).1.opState =
        RepoOpState.cherryPickInProgress ∧
      (cherry_pick repo sha apply ts newOid).1.commits = repo.commits ∧
      (revert_commit repo sha apply ts newOid).2 =
        Except.error "Revert resulted in conflicts. Please resolve them." ∧
      (revert_commit repo sha apply ts newOid).1.index.conflicts = true ∧
      (revert_commit repo sha apply ts newOid).1.opState =
        RepoOpState.revertInProgress ∧
      (revert_commit repo sha apply ts newOid).1.commits = repo.commits) ∧
    (apply.conflicts = false →
      (cherry_pick repo sha apply ts newOid).2 = Except.ok () ∧
      (cherry_pick repo sha apply ts newOid).1.opState = RepoOpState.idle ∧
      (cherry_pick repo sha apply ts newOid).1.commits =
        { id := newOid, message := target.message, author := sig.1,
          email := sig.2, timestamp := (ts : Int), parents := [h],
          tree := apply.entries } :: repo.commits ∧
      (revert_commit repo sha apply ts newOid).2 = Except.ok () ∧
      (revert_commit repo sha apply ts newOid).1.opState = RepoOpState.idle ∧
      (revert_commit repo sha apply ts newOid).1.commits =
        { id := newOid, message := "Revert \"" ++ target.message ++ "\"",
          author := sig.1, email := sig.2, timestamp := (ts : Int),
          parents := [h], tree := apply.entries } :: repo.commits) := by
  have hcid : c.id = h := (findCommit_mem_id hc).2
  have hcb := @cherry_eq_body repo
    { repo with refs := writeRef repo.refs (safetyRefName "cherry-pick" ts) h }
    ts (create_safety_ref_born hh hc) sha apply newOid
  have hrb := @revert_eq_body repo
    { repo with refs := writeRef repo.refs (safetyRefName "revert" ts) h }
    ts (create_safety_ref_born hh hc) sha apply newOid
  have hneC : ∀ t, repo.head = Head.symbolic t →
      t ≠ safetyRefName "cherry-pick" ts :=
    fun t ht => head_target_ne_safety hbr ht
  have hneR : ∀ t, repo.head = Head.symbolic t →
      t ≠ safetyRefName "revert" ts :=
    fun t ht => head_target_ne_safety hbr ht
  have hhC : headLookup { repo with
      refs := writeRef repo.refs (safetyRefName "cherry-pick" ts) h } =
      some (no, h) := by
    rw [headLookup_update_refs hneC]
    exact hh
  have hhR : headLookup { repo with
      refs := writeRef repo.refs (safetyRefName "revert" ts) h } =
      some (no, h) := by
    rw [headLookup_update_refs hneR]
    exact hh
  have hcbody : cherryBody { repo with
      refs := writeRef repo.refs (safetyRefName "cherry-pick" ts) h }
      sha apply ts newOid =
      pickCommitStep (applyCherrypick { repo with
        refs := writeRef repo.refs (safetyRefName "cherry-pick" ts) h } apply)
        "Cherry-pick resulted in conflicts. Please resolve them."
        target.message ts newOid := by
    unfold cherryBody
    simp only [htarget]
  have hrbody : revertBody { repo with
      refs := writeRef repo.refs (safetyRefName "revert" ts) h }
      sha apply ts newOid =
      pickCommitStep (applyRevert { repo with
        refs := writeRef repo.refs (safetyRefName "revert" ts) h } apply)
        "Revert resulted in conflicts. Please resolve them."
        ("Revert \"" ++ target.message ++ "\"") ts newOid := by
    unfold revertBody
    simp only [htarget]
  constructor
  · intro hconf
    have hqc := @pickCommitStep_conflicts
      (applyCherrypick { repo with
        refs := writeRef repo.refs (safetyRefName "cherry-pick" ts) h } apply)
      "Cherry-pick resulted in conflicts. Please resolve them."
      target.message ts newOid hconf
    have hqr := @pickCommitStep_conflicts
      (applyRevert { repo with
        refs := writeRef repo.refs (safetyRefName "revert" ts) h } apply)
      "Revert resulted in conflicts. Please resolve them."
      ("Revert \"" ++ target.message ++ "\"") ts newOid hconf
    rw [hcb, hcbody, hrb, hrbody, hqc, hqr]
    exact ⟨rfl, hconf, rfl, rfl, rfl, hconf, rfl, rfl⟩
  · intro hconf
    have hpc := @pickCommitStep_success
      (applyCherrypick { repo with
        refs := writeRef repo.refs (safetyRefName "cherry-pick" ts) h } apply)
      "Cherry-pick resulted in conflicts. Please resolve them."
      target.message ts newOid sig no h c hconf hsig hhC hc
    have hpr := @pickCommitStep_success
      (applyRevert { repo with
        refs := writeRef repo.refs (safetyRefName "revert" ts) h } apply)
      "Revert resulted in conflicts. Please resolve them."
      ("Revert \"" ++ target.message ++ "\"") ts newOid sig no h c hconf hsig hhR hc
    rw [hcb, hcbody, hrb, hrbody, hpc, hpr]
    refine ⟨rfl, rfl, ?_, rfl, rfl, ?_⟩
    · rw [cleanup_state_commits, updateHeadTarget_commits, hcid]
      rfl
    · rw [cleanup_state_commits, updateHeadTarget_commits, hcid]
      rfl
/-- A conflicting apply outcome, for the conflict half of the C8 witness. -/
def wApplyK : ApplyResult := { entries := [], conflicts := true }

/-- C8 witness: on the sample repository, a conflict-free cherry-pick and
revert of commit 1 synthesize the expected commits and clear the sequencer
state, while a conflicting apply surfaces the conflict error and leaves the
conflict state in place. -/
theorem c8_conflict_or_commit_witness :
    headIsBranchRef wRepo1 = true ∧
    headLookup wRepo1 = some (some "refs/heads/main", 1) ∧
    findCommit wRepo1.commits 1 = some wCommit1 ∧
    wRepo1.signature = some ("Ann", "ann@example.com") ∧
    wApply.conflicts = false ∧
    wApplyK.conflicts = true ∧
    ((cherry_pick wRepo1 1 wApply 100 2).2 = Except.ok () ∧
      (cherry_pick wRepo1 1 wApply 100 2).1.opState = RepoOpState.idle ∧
      (cherry_pick wRepo1 1 wApply 100 2).1.commits =
        { id := 2, message := wCommit1.message,
          author := ("Ann", "ann@example.com").1,
          email := ("Ann", "ann@example.com").2, timestamp := (100 : Int),
          parents := [1], tree := wApply.entries } :: wRepo1.commits ∧
      (revert_commit wRepo1 1 wApply 100 2).2 = Except.ok () ∧
      (revert_commit wRepo1 1 wApply 100 2).1.opState = RepoOpState.idle ∧
      (revert_commit wRepo1 1 wApply 100 2).1.commits =
        { id := 2, message := "Revert \"" ++ wCommit1.message ++ "\"",
          author := ("Ann", "ann@example.com").1,
          email := ("Ann", "ann@example.com").2, timestamp := (100 : Int),
          parents := [1], tree := wApply.entries } :: wRepo1.commits) ∧
    ((cherry_pick wRepo1 1 wApplyK 100 2).2 =
        Except.error "Cherry-pick resulted in conflicts. Please resolve them." ∧
      (cherry_pick wRepo1 1 wApplyK 100 2).1.index.conflicts = true ∧
      (cherry_pick wRepo1 1 wApplyK 100 2).1.opState =
        RepoOpState.cherryPickInProgress ∧
      (cherry_pick wRepo1 1 wApplyK 100 2).1.commits = wRepo1.commits ∧
      (revert_commit wRepo1 1 wApplyK 100 2).2 =
        Except.error "Revert resulted in conflicts. Please resolve them." ∧
      (revert_commit wRepo1 1 wApplyK 100 2).1.index.conflicts = true ∧
      (revert_commit wRepo1 1 wApplyK 100 2).1.opState =
        RepoOpState.revertInProgress ∧
      (revert_commit wRepo1 1 wApplyK 100 2).1.commits = wRepo1.commits) :=
  ⟨rfl, rfl, rfl, rfl, rfl, rfl,
    (c8_conflict_or_commit wRepo1 1 100 2 wApply (some "refs/heads/main") 1
      wCommit1 wCommit1 ("Ann", "ann@example.com") rfl rfl rfl rfl rfl).2 rfl,
    (c8_conflict_or_commit wRepo1 1 100 2 wApplyK (some "refs/heads/main") 1
      wCommit1 wCommit1 ("Ann", "ann@example.com") rfl rfl rfl rfl rfl).1 rfl⟩

/-- C3 amended witness: a second snapshot with the same label one second
later preserves the first safety ref binding. -/
theorem c3_amended_witness :
    create_safety_ref wRepo1 "amend" 100 = Except.ok c3s1 ∧
    create_safety_ref c3s1 "amend" 101 =
      Except.ok { c3s1 with refs := writeRef c3s1.refs (safetyRefName "amend" 101) 1 } ∧
    safetyRefName "amend" 100 ≠ safetyRefName "amend" 101 ∧
    findRef ({ c3s1 with refs := writeRef c3s1.refs (safetyRefName "amend" 101) 1 } : Repo).refs
        (safetyRefName "amend" 100) =
      findRef c3s1.refs (safetyRefName "amend" 100) :=
  ⟨rfl, rfl, by decide,
    c3_amended wRepo1 c3s1 _ "amend" "amend" 100 101 rfl rfl (by decide)⟩



/-! ## C9: repository info on an unborn branch -/

theorem lookupPath_cons_self (p : String) (v : Nat) (l : List (String × Nat)) :
    lookupPath ((p, v) :: l) p = some v := by
  simp [lookupPath, List.find?]

theorem statusScanOn_ne_nil_of_flag {headTree idx wt : List (String × Nat)}
    {p : String}
    (hp : p ∈ headTree.map Prod.fst ++ idx.map Prod.fst ++ wt.map Prod.fst)
    (hf : anyFlag (flagsFor headTree idx wt p) = true) :
    statusScanOn headTree idx wt ≠ [] := by
  intro hnil
  unfold statusScanOn at hnil
  rw [List.filter_eq_nil_iff] at hnil
  exact hnil (p, flagsFor headTree idx wt p)
    (List.mem_map_of_mem _ (List.mem_dedup.mpr hp)) (by simpa using hf)

theorem statusScanOn_unborn_nil_iff (idx wt : List (String × Nat)) :
    (statusScanOn [] idx wt = [] ↔ (idx = [] ∧ wt = [])) := by
  constructor
  · intro hscan
    have hidx : idx = [] := by
      cases hI : idx with
      | nil => rfl
      | cons e I2 =>
        exfalso
        obtain ⟨p, v⟩ := e
        have hp : p ∈ ([] : List (String × Nat)).map Prod.fst ++
            idx.map Prod.fst ++ wt.map Prod.fst := by
          rw [hI]
          simp
        have hf : anyFlag (flagsFor [] idx wt p) = true := by
          have hi : lookupPath idx p = some v := by
            rw [hI]
            exact lookupPath_cons_self p v I2
          have hne : (flagsFor [] idx wt p).indexNew = true := by
            show ((lookupPath idx p).isSome && (lookupPath [] p).isNone) = true
            rw [hi]
            rfl
          unfold anyFlag
          rw [hne]
          rfl
        exact statusScanOn_ne_nil_of_flag hp hf hscan
    subst hidx
    refine ⟨rfl, ?_⟩
    cases hW : wt with
    | nil => rfl
    | cons w W2 =>
      exfalso
      obtain ⟨p, v⟩ := w
      have hp : p ∈ ([] : List (String × Nat)).map Prod.fst ++
          ([] : List (String × Nat)).map Prod.fst ++ wt.map Prod.fst := by
        rw [hW]
        simp
      have hf : anyFlag (flagsFor [] [] wt p) = true := by
        have hw : lookupPath wt p = some v := by
          rw [hW]
          exact lookupPath_cons_self p v W2
        have hne : (flagsFor [] [] wt p).wtNew = true := by
          show ((lookupPath wt p).isSome && (lookupPath ([] : List (String × Nat)) p).isNone) = true
          rw [hw]
          rfl
        unfold anyFlag
        rw [hne]
        simp
      exact statusScanOn_ne_nil_of_flag hp hf hscan
  · intro hempty
    rw [hempty.1, hempty.2]
    rfl

/-- C9: on a repository with an unborn HEAD, get_repository_info succeeds
with ahead = 0 and behind = 0, a branch name read from the symbolic target
of HEAD with the refs/heads/ marker stripped, and a dirty flag true
exactly when the status scan is non-empty, which on the unborn branch is
exactly when staged or working-tree files exist. -/
theorem c9_unborn_info (repo : Repo) (t : String) (wt : List (String × Nat))
    (hun : headLookup repo = none) (hhead : repo.head = Head.symbolic t)
    (hw : repo.workdir = some wt) :
    get_repository_info repo = Except.ok
      { path := stripTrailingSeps repo.workdirPath
        current_branch := stripPfxOrSelf "refs/heads/" t
        is_dirty := !(statusScan repo wt).isEmpty
        ahead := 0
        behind := 0 } ∧
    ((!(statusScan repo wt).isEmpty) = true ↔
      (repo.index.entries ≠ [] ∨ wt ≠ [])) := by
  have hht : headTreeOf repo = [] := by
    unfold headTreeOf resolveHeadOid
    rw [hun]
    rfl
  constructor
  · unfold get_repository_info
    rw [hun, hhead, hw]
  · have hiff := statusScanOn_unborn_nil_iff repo.index.entries wt
    unfold statusScan
    rw [hht]
    constructor
    · intro hdirty
      have hne : statusScanOn [] repo.index.entries wt ≠ [] := by
        intro hnil
        rw [hnil] at hdirty
        exact (Bool.noConfusion hdirty)
      by_contra hcon
      rw [not_or] at hcon
      obtain ⟨h1, h2⟩ := hcon
      rw [not_not] at h1 h2
      exact hne (hiff.mpr ⟨h1, h2⟩)
    · intro hor
      have hne : statusScanOn [] repo.index.entries wt ≠ [] := by
        intro hnil
        rcases hor with h1 | h2
        · exact h1 (hiff.mp hnil).1
        · exact h2 (hiff.mp hnil).2
      cases hs : statusScanOn [] repo.index.entries wt with
      | nil => exact absurd hs hne
      | cons a l2 => rfl

def wRepoU : Repo :=
  { commits := [], refs := [], head := Head.symbolic "refs/heads/main",
    branchConfig := [],
    index := { entries := [("x.txt", 1)], conflicts := false },
    workdir := some [("y.txt", 2)], workdirPath := "/tmp/u/",
    signature := none, opState := RepoOpState.idle }

/-- C9 witness: on a freshly initialized repository with a staged file and
an untracked file, info reports branch main, zero ahead/behind and a true
dirty flag. -/
theorem c9_unborn_info_witness :
    headLookup wRepoU = none ∧
    wRepoU.head = Head.symbolic "refs/heads/main" ∧
    wRepoU.workdir = some [("y.txt", 2)] ∧
    (get_repository_info wRepoU = Except.ok
      { path := stripTrailingSeps wRepoU.workdirPath
        current_branch := stripPfxOrSelf "refs/heads/" "refs/heads/main"
        is_dirty := !(statusScan wRepoU [("y.txt", 2)]).isEmpty
        ahead := 0
        behind := 0 } ∧
      ((!(statusScan wRepoU [("y.txt", 2)]).isEmpty) = true ↔
        (wRepoU.index.entries ≠ [] ∨ ([("y.txt", 2)] : List (String × Nat)) ≠ []))) :=
  ⟨rfl, rfl, rfl,
    c9_unborn_info wRepoU "refs/heads/main" [("y.txt", 2)] rfl rfl rfl⟩

/-! ## C7: pull as fetch then fast-forward only -/

theorem pullDecide_upToDate {r1 : Repo} {b : String} {f l : Nat}
    (hcond : (l == f || graph_descendant_of r1.commits l f) = true) :
    pullDecide r1 b f l = (r1, Except.ok ()) := by
  unfold pullDecide
  rw [if_pos hcond]

theorem pullDecide_ff {r1 : Repo} {b : String} {f l : Nat} {c : Commit}
    {w : List (String × Nat)}
    (hcond1 : (l == f || graph_descendant_of r1.commits l f) = false)
    (hcond2 : graph_descendant_of r1.commits f l = true)
    (hfc : findCommit r1.commits f = some c) (hwd : r1.workdir = some w) :
    pullDecide r1 b f l =
      ({ r1 with refs := writeRef r1.refs b f
                 index := { entries := c.tree, conflicts := false }
                 workdir := some c.tree }, Except.ok ()) := by
  unfold pullDecide
  simp only [hcond1, Bool.false_eq_true, if_false, hcond2, if_true, hfc, hwd]

theorem pullDecide_diverged {r1 : Repo} {b : String} {f l : Nat}
    (hcond1 : (l == f || graph_descendant_of r1.commits l f) = false)
    (hcond2 : graph_descendant_of r1.commits f l = false) :
    pullDecide r1 b f l =
      (r1, Except.error "non-fast-forward: histories have diverged") := by
  unfold pullDecide
  simp only [hcond1, hcond2, Bool.false_eq_true, if_false]

/-- C7 (spec-modelled): the native pull is fetch followed by fast-forward
only.  When the fetched tip is already reachable-from-or-equal-to the
local tip, pull is a no-op on the branch, index and working tree.  When
the local tip is a strict ancestor of the fetched tip, the local branch
ref moves to the fetched tip and the working tree and index are
force-checked-out to its tree.  When the histories have diverged, pull
reports the distinct non-fast-forward condition and leaves HEAD, the
branch ref, the commit store and the working tree unchanged.  In every
case the commit store is unchanged: no merge is ever attempted. -/
theorem c7_pull_fast_forward (repo : Repo) (branchRef upstreamRef : String)
    (fetchedTip l : Nat) (hwf : WfCommits repo.commits)
    (hbne : branchRef ≠ upstreamRef)
    (hbr : findRef repo.refs branchRef = some l) :
    ((l = fetchedTip ∨ Reaches repo.commits l fetchedTip) →
      (pull_fast_forward repo branchRef upstreamRef fetchedTip).2 =
        Except.ok () ∧
      findRef (pull_fast_forward repo branchRef upstreamRef fetchedTip).1.refs
        branchRef = some l ∧
      (pull_fast_forward repo branchRef upstreamRef fetchedTip).1.commits =
        repo.commits ∧
      (pull_fast_forward repo branchRef upstreamRef fetchedTip).1.workdir =
        repo.workdir) ∧
    (Reaches repo.commits fetchedTip l →
      ∀ (c : Commit) (w : List (String × Nat)),
        findCommit repo.commits fetchedTip = some c → repo.workdir = some w →
        (pull_fast_forward repo branchRef upstreamRef fetchedTip).2 =
          Except.ok () ∧
        findRef (pull_fast_forward repo branchRef upstreamRef fetchedTip).1.refs
          branchRef = some fetchedTip ∧
        (pull_fast_forward repo branchRef upstreamRef fetchedTip).1.workdir =
          some c.tree ∧
        (pull_fast_forward repo branchRef upstreamRef fetchedTip).1.commits =
          repo.commits) ∧
    (l ≠ fetchedTip → ¬ Reaches repo.commits l fetchedTip →
      ¬ Reaches repo.commits fetchedTip l →
      (pull_fast_forward repo branchRef upstreamRef fetchedTip).2 =
        Except.error "non-fast-forward: histories have diverged" ∧
      findRef (pull_fast_forward repo branchRef upstreamRef fetchedTip).1.refs
        branchRef = some l ∧
      (pull_fast_forward repo branchRef upstreamRef fetchedTip).1.head =
        repo.head ∧
      (pull_fast_forward repo branchRef upstreamRef fetchedTip).1.commits =
        repo.commits ∧
      (pull_fast_forward repo branchRef upstreamRef fetchedTip).1.workdir =
        repo.workdir) := by
  have hfr : findRef (writeRef repo.refs upstreamRef fetchedTip) branchRef =
      some l := by
    rw [findRef_writeRef_other _ hbne]
    exact hbr
  have hdisp : pull_fast_forward repo branchRef upstreamRef fetchedTip =
      pullDecide { repo with
        refs := writeRef repo.refs upstreamRef fetchedTip }
        branchRef fetchedTip l := by
    unfold pull_fast_forward pullAnalysis
    rw [hfr]
  refine ⟨?_, ?_, ?_⟩
  · intro hup
    have hcond : (l == fetchedTip ||
        graph_descendant_of repo.commits l fetchedTip) = true := by
      rcases hup with he | hr
      · rw [beq_iff_eq.mpr he]
        rfl
      · exact Bool.or_eq_true_iff.mpr
          (Or.inr ((descFuel_iff_reaches hwf).mpr hr))
    rw [hdisp, @pullDecide_upToDate
      { repo with refs := writeRef repo.refs upstreamRef fetchedTip }
      branchRef fetchedTip l hcond]
    exact ⟨rfl, hfr, rfl, rfl⟩
  · intro hff c w hfc hwd
    have hlf : l < fetchedTip := reaches_lt hwf hff
    have h1 : (l == fetchedTip) = false := beq_eq_false_iff_ne.mpr (by omega)
    have h2 : graph_descendant_of repo.commits l fetchedTip = false := by
      cases hd : graph_descendant_of repo.commits l fetchedTip with
      | false => rfl
      | true =>
        have := reaches_lt hwf (descFuel_sound hd)
        omega
    have hcond1 : (l == fetchedTip ||
        graph_descendant_of repo.commits l fetchedTip) = false := by
      rw [h1, h2]
      rfl
    have hcond2 : graph_descendant_of repo.commits fetchedTip l = true :=
      (descFuel_iff_reaches hwf).mpr hff
    rw [hdisp, @pullDecide_ff
      { repo with refs := writeRef repo.refs upstreamRef fetchedTip }
      branchRef fetchedTip l c w hcond1 hcond2 hfc hwd]
    exact ⟨rfl, findRef_writeRef_self _ _ _, rfl, rfl⟩
  · intro hne hnl hnf
    have h1 : (l == fetchedTip) = false := beq_eq_false_iff_ne.mpr hne
    have h2 : graph_descendant_of repo.commits l fetchedTip = false := by
      cases hd : graph_descendant_of repo.commits l fetchedTip with
      | false => rfl
      | true => exact absurd (descFuel_sound hd) hnl
    have h3 : graph_descendant_of repo.commits fetchedTip l = false := by
      cases hd : graph_descendant_of repo.commits fetchedTip l with
      | false => rfl
      | true => exact absurd (descFuel_sound hd) hnf
    have hcond1 : (l == fetchedTip ||
        graph_descendant_of repo.commits l fetchedTip) = false := by
      rw [h1, h2]
      rfl
    rw [hdisp, @pullDecide_diverged
      { repo with refs := writeRef repo.refs upstreamRef fetchedTip }
      branchRef fetchedTip l hcond1 h3]
    exact ⟨rfl, hfr, rfl, rfl, rfl⟩

def wCommitP4 : Commit :=
  { id := 4, message := "ahead", author := "Ann", email := "ann@example.com",
    timestamp := 4, parents := [2], tree := [("a", 4)] }

def wCommitsP : List Commit :=
  [{ id := 1, message := "base", author := "Ann", email := "ann@example.com",
     timestamp := 1, parents := [], tree := [("a", 1)] },
   { id := 2, message := "left", author := "Ann", email := "ann@example.com",
     timestamp := 2, parents := [1], tree := [("a", 2)] },
   { id := 3, message := "right", author := "Ann", email := "ann@example.com",
     timestamp := 3, parents := [1], tree := [("a", 3)] },
   wCommitP4]

def wRepoP : Repo :=
  { commits := wCommitsP,
    refs := [("refs/heads/main", 2), ("refs/remotes/origin/main", 1)],
    head := Head.symbolic "refs/heads/main",
    branchConfig := [("refs/heads/main", "refs/remotes/origin/main")],
    index := { entries := [("a", 2)], conflicts := false },
    workdir := some [("a", 2)], workdirPath := "/tmp/p",
    signature := some ("Ann", "ann@example.com"), opState := RepoOpState.idle }

/-- C7 witness: on a concrete graph with local tip 2, pulling an already
contained tip (1) is a no-op, pulling a strict descendant (4) fast-forwards
the branch and working tree, and pulling the sibling tip (3) reports the
non-fast-forward condition and changes nothing. -/
theorem c7_pull_fast_forward_witness :
    WfCommits wRepoP.commits ∧
    "refs/heads/main" ≠ "refs/remotes/origin/main" ∧
    findRef wRepoP.refs "refs/heads/main" = some 2 ∧
    ((pull_fast_forward wRepoP "refs/heads/main" "refs/remotes/origin/main" 1).2 =
        Except.ok () ∧
      findRef (pull_fast_forward wRepoP "refs/heads/main"
        "refs/remotes/origin/main" 1).1.refs "refs/heads/main" = some 2 ∧
      (pull_fast_forward wRepoP "refs/heads/main"
        "refs/remotes/origin/main" 1).1.commits = wRepoP.commits ∧
      (pull_fast_forward wRepoP "refs/heads/main"
        "refs/remotes/origin/main" 1).1.workdir = wRepoP.workdir) ∧
    ((pull_fast_forward wRepoP "refs/heads/main" "refs/remotes/origin/main" 4).2 =
        Except.ok () ∧
      findRef (pull_fast_forward wRepoP "refs/heads/main"
        "refs/remotes/origin/main" 4).1.refs "refs/heads/main" = some 4 ∧
      (pull_fast_forward wRepoP "refs/heads/main"
        "refs/remotes/origin/main" 4).1.workdir = some wCommitP4.tree ∧
      (pull_fast_forward wRepoP "refs/heads/main"
        "refs/remotes/origin/main" 4).1.commits = wRepoP.commits) ∧
    ((pull_fast_forward wRepoP "refs/heads/main" "refs/remotes/origin/main" 3).2 =
        Except.error "non-fast-forward: histories have diverged" ∧
      findRef (pull_fast_forward wRepoP "refs/heads/main"
        "refs/remotes/origin/main" 3).1.refs "refs/heads/main" = some 2 ∧
      (pull_fast_forward wRepoP "refs/heads/main"
        "refs/remotes/origin/main" 3).1.head = wRepoP.head ∧
      (pull_fast_forward wRepoP "refs/heads/main"
        "refs/remotes/origin/main" 3).1.commits = wRepoP.commits ∧
      (pull_fast_forward wRepoP "refs/heads/main"
        "refs/remotes/origin/main" 3).1.workdir = wRepoP.workdir) :=
  ⟨by decide, by decide, rfl,
    (c7_pull_fast_forward wRepoP "refs/heads/main" "refs/remotes/origin/main"
      1 2 (by decide) (by decide) rfl).1
      (Or.inr (Reaches.parent (by decide))),
    (c7_pull_fast_forward wRepoP "refs/heads/main" "refs/remotes/origin/main"
      4 2 (by decide) (by decide) rfl).2.1
      (Reaches.parent (by decide)) wCommitP4 [("a", 2)] rfl rfl,
    (c7_pull_fast_forward wRepoP "refs/heads/main" "refs/remotes/origin/main"
      3 2 (by decide) (by decide) rfl).2.2
      (by decide)
      (fun h => absurd ((descFuel_iff_reaches (by decide)).mpr h) (by decide))
      (fun h => absurd ((descFuel_iff_reaches (by decide)).mpr h) (by decide))⟩
